import Mathlib

/-!
Verification development for the Retro_game maze core: the maze generator
(`src/BAse/mazegenerator.py`), the A* solver and the Q-learning bots
(`src/logic/ai_bot_logic.py`), and the adaptive game layer
(`src/logic/adaptive_logic.py`).

Conventions of the shallow embedding:
* a numpy 2-D grid is a `List (List ℕ)` of cell codes (EMPTY=0, WALL=1,
  START=2, GOAL=3);
* positions are pairs of integers `(row, col)` so that out-of-range
  arithmetic (`state[0] - 1` at row 0) is represented faithfully;
* Python floats are modelled as exact rationals `ℚ`;
* the random source is modelled as an explicit stream of naturals
  (for `random.shuffle` / `random.choice` / `random.randint`) and of
  rationals in `[0,1)` (for `random.random()` / `random.uniform(0,1)`);
* numpy integer indexing is modelled with Python semantics: an index
  `i` with `-n ≤ i < 0` wraps to `i + n`, an index outside `[-n, n)`
  raises `IndexError` (modelled with `Except`/`Option`);
* unbounded loops (`while`, recursion used for retries) take explicit
  fuel and return `none`/an error when the fuel is exhausted.
-/

namespace RetroMaze

/-- A `(row, col)` position, integer-valued like the Python tuples. -/
abbrev Pos := ℤ × ℤ

/-- `ACTIONS = [(-1, 0), (1, 0), (0, -1), (0, 1)]` (up, down, left, right)
from `ai_bot_logic.py`. -/
def ACTIONS : List Pos := [(-1, 0), (1, 0), (0, -1), (0, 1)]

/-- `self.directions = [(0, -1), (1, 0), (0, 1), (-1, 0)]` from
`MazeGenerator.__init__`. -/
def dirs4 : List Pos := [(0, -1), (1, 0), (0, 1), (-1, 0)]

/-- A 2-D grid of cell codes, row major, as produced by numpy arrays
over {0,1,2,3}. -/
abbrev Grid := List (List ℕ)

/-- Number of rows (`maze.shape[0]`). -/
def gridH (g : Grid) : ℕ := g.length

/-- Number of columns (`maze.shape[1]`); our grids are rectangular, so the
first row's length is the width. -/
def gridW (g : Grid) : ℕ := (g.headD []).length

/-- Read a cell at nonnegative indices; out-of-range reads default to 1
(all call sites guard bounds before reading, mirroring the Python code). -/
def cellNat (g : Grid) (y x : ℕ) : ℕ := (g.getD y []).getD x 1

/-- Read a cell at an integer position (used after an in-bounds check). -/
def cellZ (g : Grid) (p : Pos) : ℕ := cellNat g p.1.toNat p.2.toNat

/-- `0 <= state[0] < shape[0] and 0 <= state[1] < shape[1]`. -/
def inB (g : Grid) (p : Pos) : Bool :=
  decide (0 ≤ p.1 ∧ p.1 < (gridH g : ℤ) ∧ 0 ≤ p.2 ∧ p.2 < (gridW g : ℤ))

/-- `MazeBot.is_valid`: within bounds and not a wall. -/
def is_valid (g : Grid) (p : Pos) : Bool := inB g p && !(cellZ g p == 1)

/-- Manhattan distance, `heuristic` in `ai_bot_logic.py`. -/
def manhattan (a b : Pos) : ℕ := (a.1 - b.1).natAbs + (a.2 - b.2).natAbs

/-- Write a cell of the grid at nonnegative indices (`maze[y, x] = v`). -/
def gridSet (g : Grid) (y x : ℕ) (v : ℕ) : Grid :=
  g.set y ((g.getD y []).set x v)

/-- Python-semantics resolution of a (possibly negative) numpy index:
wraps once for `-n ≤ i < 0`, raises (`none`) outside `[-n, n)`. -/
def npIdx (i : ℤ) (n : ℕ) : Option ℕ :=
  if 0 ≤ i ∧ i < (n : ℤ) then some i.toNat
  else if -(n : ℤ) ≤ i ∧ i < 0 then some (i + n).toNat
  else none

/-! ### Association-list maps (Python dicts) -/

/-- Dict lookup: first binding wins (`aset` prepends). -/
def aget [BEq κ] (m : List (κ × α)) (k : κ) : Option α :=
  (m.find? (fun e => e.1 == k)).map (·.2)

/-- Dict update `m[k] = v` (prepend; `aget` sees the newest binding). -/
def aset [BEq κ] (m : List (κ × α)) (k : κ) (v : α) : List (κ × α) := (k, v) :: m

/-- `dict.get(k, 0)` for counters. -/
def agetD (m : List (Pos × ℕ)) (k : Pos) : ℕ := (aget m k).getD 0

/-! ### Reachability predicates

`ReachOpen` is reachability through EMPTY (`0`) cells, the notion checked
by the generator's breadth-first validation; the start cell itself is not
required to be open.  `ReachFree` is reachability through non-WALL
(`≠ 1`) cells, the notion explored by the A* solver and the bots. -/

/-- One 4-neighbourhood step. -/
def adj (p q : Pos) : Prop := (q.1 - p.1).natAbs + (q.2 - p.2).natAbs = 1

instance (p q : Pos) : Decidable (adj p q) := by
  unfold adj; infer_instance

/-- Reachability from `s` through cells of code 0 (the start cell is not
itself constrained). -/
inductive ReachOpen (g : Grid) (s : Pos) : Pos → Prop
  | refl : ReachOpen g s s
  | step {p q : Pos} : ReachOpen g s p → adj p q → inB g q = true →
      cellZ g q = 0 → ReachOpen g s q

/-- Reachability from `s` through non-wall cells (the start cell is not
itself constrained). -/
inductive ReachFree (g : Grid) (s : Pos) : Pos → Prop
  | refl : ReachFree g s s
  | step {p q : Pos} : ReachFree g s p → adj p q → inB g q = true →
      cellZ g q ≠ 1 → ReachFree g s q

/-! ## A* solver (`AStarMazeSolver` in `ai_bot_logic.py`) -/

/-- A heap entry `(f_score, count, position)`. -/
abbrev AEntry := ℕ × ℕ × Pos

/-- Python tuple comparison on heap entries (counters are unique in every
run, so the position component never actually decides). -/
def entryLe (a b : AEntry) : Bool :=
  decide (a.1 < b.1) ||
    (a.1 == b.1 && (decide (a.2.1 < b.2.1) ||
      (a.2.1 == b.2.1 && decide (a.2.2 ≤ b.2.2))))

/-- `heapq.heappop`: extract the minimal entry (tuple order) from the
open list, returning it and the remaining entries. -/
def popMin (l : List AEntry) : Option (AEntry × List AEntry) :=
  match l with
  | [] => none
  | e :: es =>
    match popMin es with
    | none => some (e, [])
    | some (m, rest) =>
      if entryLe e m then some (e, es) else some (m, e :: rest)

/-- Relax one neighbour of `cur` (the body of the `for dx, dy in ACTIONS`
loop of `AStarMazeSolver.solve`).  State: open list, `g_score`,
`f_score`, `came_from`, tie-break counter. -/
def relaxOne (g : Grid) (goal cur : Pos) (closed : List Pos) (a : Pos)
    (st : List AEntry × List (Pos × ℕ) × List (Pos × ℕ) × List (Pos × Pos) × ℕ) :
    List AEntry × List (Pos × ℕ) × List (Pos × ℕ) × List (Pos × Pos) × ℕ :=
  let (openL, gS, fS, cf, counter) := st
  let nb : Pos := (cur.1 + a.1, cur.2 + a.2)
  if !(inB g nb) || cellZ g nb == 1 || closed.contains nb then st
  else
    match aget gS cur with
    | none => st
    | some gc =>
      let t := gc + 1
      let better := match aget gS nb with
        | none => true
        | some gn => decide (t < gn)
      if better then
        let gS' := aset gS nb t
        let fS' := aset fS nb (t + manhattan nb goal)
        let cf' := aset cf nb cur
        if openL.any (fun e => e.2.2 == nb) then (openL, gS', fS', cf', counter)
        else ((t + manhattan nb goal, counter + 1, nb) :: openL, gS', fS', cf', counter + 1)
      else st

/-- Relax the four neighbours of `cur` in `ACTIONS` order. -/
def relaxAll (g : Grid) (goal cur : Pos) (closed : List Pos)
    (st : List AEntry × List (Pos × ℕ) × List (Pos × ℕ) × List (Pos × Pos) × ℕ) :
    List AEntry × List (Pos × ℕ) × List (Pos × ℕ) × List (Pos × Pos) × ℕ :=
  ACTIONS.foldl (fun s a => relaxOne g goal cur closed a s) st

/-- `AStarMazeSolver._reconstruct_path`, accumulating in start→goal order
(the Python code builds goal→start and reverses). -/
def reconstruct (cf : List (Pos × Pos)) : ℕ → Pos → List Pos → Option (List Pos)
  | 0, _, _ => none
  | fuel + 1, cur, acc =>
    match aget cf cur with
    | none => some (cur :: acc)
    | some p => reconstruct cf fuel p (cur :: acc)

/-- The `while open_set:` loop of `AStarMazeSolver.solve`. -/
def solveLoop (g : Grid) (goal : Pos) :
    ℕ → List AEntry → List (Pos × ℕ) → List (Pos × ℕ) → List (Pos × Pos) →
    List Pos → ℕ → Option (List Pos)
  | 0, _, _, _, _, _, _ => none
  | fuel + 1, openL, gS, fS, cf, closed, counter =>
    match popMin openL with
    | none => some []
    | some (e, rest) =>
      let cur := e.2.2
      if cur == goal then reconstruct cf (cf.length + 1) cur []
      else
        let closed' := cur :: closed
        let (o', gS', fS', cf', c') := relaxAll g goal cur closed' (rest, gS, fS, cf, counter)
        solveLoop g goal fuel o' gS' fS' cf' closed' c'

/-- `AStarMazeSolver.solve()`: A* from `start` to `goal`.  `some []` is
the Python `return []` (no path); `none` means the fuel ran out (cannot
happen in a real run, every theorem is conditional on a returned value). -/
def solve (g : Grid) (start goal : Pos) (fuel : ℕ) : Option (List Pos) :=
  solveLoop g goal fuel [(0, 0, start)] [(start, 0)]
    [(start, manhattan start goal)] [] [] 0

/-- `AStarMazeSolver.get_action_sequence` displacement matching:
each consecutive pair of path cells is matched against `ACTIONS`. -/
def actionSeq : List Pos → List ℕ
  | a :: b :: rest =>
    (match ACTIONS.findIdx? (fun d => d == (b.1 - a.1, b.2 - a.2)) with
     | some i => [i]
     | none => []) ++ actionSeq (b :: rest)
  | _ => []

/-- `get_action_sequence()` as used right after `solve()` stored `path`. -/
def getActionSequence (path : List Pos) : List ℕ :=
  if path.isEmpty then [] else actionSeq path

/-! ## Breadth-first validation (`MazeGenerator._validate_maze`) -/

/-- Process the four directions of one BFS dequeue: extend queue and
visited set with unvisited open in-bounds neighbours. -/
def bfsExpand (g : Grid) (p : Pos) (queue visited : List Pos) :
    List Pos × List Pos :=
  dirs4.foldl
    (fun (s : List Pos × List Pos) d =>
      let nb : Pos := (p.1 + d.1, p.2 + d.2)
      if inB g nb && cellZ g nb == 0 && !(s.2.contains nb) then
        (s.1 ++ [nb], nb :: s.2)
      else s)
    (queue, visited)

/-- The `while queue:` loop of `_validate_maze` (FIFO order). -/
def bfsLoop (g : Grid) (target : Pos) : ℕ → List Pos → List Pos → Bool
  | 0, _, _ => false
  | _ + 1, [], _ => false
  | fuel + 1, q :: qs, visited =>
    if q == target then true
    else
      let (queue', visited') := bfsExpand g q qs visited
      bfsLoop g target fuel queue' visited'

/-- `MazeGenerator._validate_maze`: entry and exit must be open cells and
breadth-first search from the entry must reach the exit. -/
def validateMaze (g : Grid) (entry exitp : Pos) (fuel : ℕ) : Bool :=
  if !(cellZ g entry == 0) || !(cellZ g exitp == 0) then false
  else bfsLoop g exitp fuel [entry] [entry]

/-! ## Q-learning agent (`QLearningAgent` in `ai_bot_logic.py`) -/

/-- `ALPHA = 0.1`. -/
def ALPHA : ℚ := 1 / 10

/-- `GAMMA = 0.9`. -/
def GAMMA : ℚ := 9 / 10

/-- `MAX_BACKTRACKS = 5000`. -/
def MAX_BACKTRACKS : ℕ := 5000

/-- `MAX_STEPS = 20000`. -/
def MAX_STEPS : ℕ := 20000

/-- The Q-table `np.zeros((*maze_shape, 4))`, as a function from resolved
(nonnegative) indices; entries outside the maze shape are never read or
written thanks to the explicit `npIdx` resolution below. -/
abbrev QTable := ℕ → ℕ → ℕ → ℚ

/-- Zero-initialised Q-table (also the result of a failed disk load). -/
def qZero : QTable := fun _ _ _ => 0

/-- `np.max(self.q_table[y, x])`: maximum over the four action values. -/
def qMaxAt (q : QTable) (y x : ℕ) : ℚ :=
  max (max (max (q y x 0) (q y x 1)) (q y x 2)) (q y x 3)

/-- `np.argmax(self.q_table[y, x])`: first index attaining the maximum. -/
def qArgmaxAt (q : QTable) (y x : ℕ) : ℕ :=
  let m := qMaxAt q y x
  if q y x 0 == m then 0 else if q y x 1 == m then 1
  else if q y x 2 == m then 2 else 3

/-- The i-th entry of `ACTIONS`. -/
def actionAt (i : ℕ) : Pos := ACTIONS.getD i (0, 0)

/-- `state + ACTIONS[i]`. -/
def moveBy (p : Pos) (i : ℕ) : Pos := (p.1 + (actionAt i).1, p.2 + (actionAt i).2)

/-- Bounds test against a raw `(h, w)` shape (`q_table.shape`). -/
def inShape (h w : ℕ) (p : Pos) : Bool :=
  decide (0 ≤ p.1 ∧ p.1 < (h : ℤ) ∧ 0 ≤ p.2 ∧ p.2 < (w : ℤ))

/-- `min` with a key, Python style: first element with the least key wins
(strict improvement replaces the running best). -/
def minPairAux : (ℕ × ℕ) → List (ℕ × ℕ) → (ℕ × ℕ)
  | b, [] => b
  | b, x :: xs => minPairAux (if x.2 < b.2 then x else b) xs

/-- `valid_actions` of `QLearningAgent.explore_action`: the in-bounds
neighbour actions paired with the neighbour's recorded visit count
(walls are NOT excluded, exactly as in the source). -/
def exploreValidActions (h w : ℕ) (vc : List (Pos × ℕ)) (state : Pos) :
    List (ℕ × ℕ) :=
  (List.range 4).filterMap fun idx =>
    let new_state := moveBy state idx
    if inShape h w new_state then some (idx, agetD vc new_state) else none

/-- `QLearningAgent.explore_action`: least-visited in-bounds neighbour
action, ties to the first-enumerated; uniformly random action (drawn from
the natural stream) when no neighbour is in bounds. -/
def explore_action (h w : ℕ) (vc : List (Pos × ℕ)) (state : Pos)
    (natDraw : ℕ) : ℕ :=
  match exploreValidActions h w vc state with
  | [] => natDraw % 4
  | v :: vs => (minPairAux v vs).1

/-- The epsilon of `QLearningAgent.choose_action`:
`max(0.05, 0.3 - total_steps/10000 - level*0.02)`. -/
def epsilonOf (level total_steps : ℕ) : ℚ :=
  max (1 / 20) (3 / 10 - (total_steps : ℚ) / 10000 - (level : ℚ) * (1 / 50))

/-- `QLearningAgent.choose_action`: bump the visit count of the current
state, then epsilon-greedy: explore below epsilon, else argmax.  Returns
the chosen action index and the updated visit counts. -/
def choose_action (h w : ℕ) (q : QTable) (vc : List (Pos × ℕ)) (level : ℕ)
    (state : Pos) (total_steps : ℕ) (draw : ℚ) (natDraw : ℕ) :
    ℕ × List (Pos × ℕ) :=
  let vc' := aset vc state (agetD vc state + 1)
  if draw < epsilonOf level total_steps then
    (explore_action h w vc' state natDraw, vc')
  else
    (qArgmaxAt q state.1.toNat state.2.toNat, vc')

/-- The in-range core of `update_q_table` at resolved indices. -/
def updateCore (q : QTable) (sy sx : ℕ) (action : ℕ) (reward : ℚ)
    (ny nx : ℕ) : QTable :=
  let best := qMaxAt q ny nx
  fun y x a =>
    if y = sy ∧ x = sx ∧ a = action then
      q sy sx action + ALPHA * (reward + GAMMA * best - q sy sx action)
    else q y x a

/-- `QLearningAgent.update_q_table` with numpy index semantics: a negative
index within `[-n, 0)` wraps, an index outside `[-n, n)` raises. -/
def update_q_table (h w : ℕ) (q : QTable) (state : Pos) (action : ℕ)
    (reward : ℚ) (next_state : Pos) : Except String QTable :=
  match npIdx next_state.1 h, npIdx next_state.2 w,
      npIdx state.1 h, npIdx state.2 w with
  | some ny, some nx, some sy, some sx =>
    Except.ok (updateCore q sy sx action reward ny nx)
  | _, _, _, _ => Except.error ("IndexError")

/-! ## Bot state and `MazeBot.step` / `EnhancedMazeBot.step` -/

/-- The result of one `step()` call: a position or the `"regenerate"`
signal. -/
inductive StepOut where
  | pos (p : Pos)
  | regenerate
deriving Repr, DecidableEq

/-- Combined mutable state of `MazeBot`/`EnhancedMazeBot` (the base bot
simply never touches the enhanced-only fields).  The maze itself is part
of the state so that frame properties about it are expressible. -/
structure Bot where
  maze : Grid
  level : ℕ
  q : QTable
  visit_counts : List (Pos × ℕ)
  visited_states : List Pos
  backtrack_count : ℕ
  step_count : ℕ
  visited_counts : List (Pos × ℕ)
  last_state : Option Pos
  start : Pos
  goal : Pos
  state : Pos
  use_astar_hints : Bool
  a_star_cache : List ((Pos × Pos) × List ℕ)
  dead_ends : List Pos
  current_direction : Option Pos

/-- Default A* fuel: one loop iteration per possible push plus slack. -/
def solveFuel (g : Grid) : ℕ := gridH g * gridW g + 2

/-- `np.argwhere(maze == c)[0]` : first cell (row-major) with code `c`. -/
def firstCell (g : Grid) (c : ℕ) : Option Pos :=
  (((List.range (gridH g)).map (fun y =>
      (List.range (gridW g)).map (fun x => ((y : ℤ), (x : ℤ))))).flatten).find?
    (fun p => cellZ g p == c)

/-- `np.clip(p, 0, shape - 1)` on both coordinates. -/
def clipPos (g : Grid) (p : Pos) : Pos :=
  (min (max p.1 0) ((gridH g : ℤ) - 1), min (max p.2 0) ((gridW g : ℤ) - 1))

/-- `self.agent.q_table *= 0.9`. -/
def decayQ (q : QTable) : QTable := fun y x a => (9 / 10) * q y x a

/-- `MazeBot.step` (`ai_bot_logic.py` lines 235-285).  `draw` models the
`random.uniform(0,1)` consumed by `choose_action`, `natDraw` the
`random.choice` of the exploration fallback. -/
def mazeBotStep (st : Bot) (draw : ℚ) (natDraw : ℕ) :
    Except String (StepOut × Bot) :=
  let h := gridH st.maze
  let w := gridW st.maze
  if st.backtrack_count ≥ MAX_BACKTRACKS ∨ st.step_count ≥ MAX_STEPS then
    match firstCell st.maze 2, firstCell st.maze 3 with
    | some s2, some s3 =>
      match solve st.maze (clipPos st.maze s2) (clipPos st.maze s3)
          (solveFuel st.maze) with
      | none => Except.error ("fuel")
      | some [] => Except.ok (StepOut.regenerate, st)
      | some (_ :: _) =>
        Except.ok (StepOut.pos st.state,
          { st with q := decayQ st.q, backtrack_count := 0, step_count := 0 })
    | _, _ => Except.error ("IndexError")
  else
    let ca := choose_action h w st.q st.visit_counts st.level st.state
      st.step_count draw natDraw
    let action_idx := ca.1
    let vc' := ca.2
    let next_state := moveBy st.state action_idx
    let current_dist := manhattan st.state st.goal
    let new_dist := if is_valid st.maze next_state then
        manhattan next_state st.goal else current_dist
    let progress_reward : ℚ := ((current_dist : ℚ) - (new_dist : ℚ)) * 2
    if is_valid st.maze next_state then
      let reward : ℚ :=
        if next_state == st.goal then 100
        else
          let visit_count := agetD st.visited_counts next_state
          let r1 := progress_reward - 10 * ((visit_count : ℚ) + 1)
          if some next_state == st.last_state then r1 - 15 else r1
      let st1 := { st with
        visit_counts := vc',
        visited_counts := aset st.visited_counts next_state
          (agetD st.visited_counts next_state + 1),
        last_state := some st.state,
        state := next_state,
        step_count := st.step_count + 1 }
      match update_q_table h w st1.q st1.state action_idx reward next_state with
      | Except.ok q' => Except.ok (StepOut.pos st1.state, { st1 with q := q' })
      | Except.error e => Except.error e
    else
      match update_q_table h w st.q st.state action_idx (-20) next_state with
      | Except.ok q' =>
        Except.ok (StepOut.pos st.state, { st with q := q', visit_counts := vc' })
      | Except.error e => Except.error e

/-- `EnhancedMazeBot._count_valid_moves`. -/
def countValidMoves (g : Grid) (state : Pos) : ℕ :=
  ((List.range 4).filter (fun i => is_valid g (moveBy state i))).length

/-- `EnhancedMazeBot.get_optimal_path`: look up the `(position, goal)`
cache, else run A* from `current_pos` and cache the action sequence. -/
def get_optimal_path (st : Bot) (current_pos : Pos) :
    Except String (List ℕ × Bot) :=
  match aget st.a_star_cache (current_pos, st.goal) with
  | some acts => Except.ok (acts, st)
  | none =>
    match solve st.maze current_pos st.goal (solveFuel st.maze) with
    | none => Except.error ("fuel")
    | some path =>
      let acts := getActionSequence path
      Except.ok (acts,
        { st with a_star_cache := aset st.a_star_cache (current_pos, st.goal) acts })

/-- The `for i in range(min(3, len(optimal_actions)))` look-ahead of
`EnhancedMazeBot.step`: skip known dead ends, commit to the first valid
landing cell (one action applied to the *current* state each time). -/
def tryFollowFrom (st : Bot) (acts : List ℕ) :
    ℕ → ℕ → Except String (Option (StepOut × Bot))
  | _, 0 => Except.ok none
  | i, rem + 1 =>
    let action_idx := acts.getD i 0
    let a := actionAt action_idx
    let next_state := moveBy st.state action_idx
    if st.dead_ends.contains next_state then tryFollowFrom st acts (i + 1) rem
    else if is_valid st.maze next_state then
      let momentum_factor : ℚ :=
        match st.current_direction with
        | some d => if a == d then 8 / 10 else 5 / 10
        | none => 7 / 10
      let reward := 50 * momentum_factor
      match update_q_table (gridH st.maze) (gridW st.maze) st.q st.state
          action_idx reward next_state with
      | Except.error e => Except.error e
      | Except.ok q' =>
        let st1 := { st with
          q := q',
          last_state := some st.state,
          current_direction := some a,
          state := next_state,
          visited_states := next_state :: st.visited_states,
          step_count := st.step_count + 1 }
        let st2 :=
          if countValidMoves st1.maze st1.state == 1 && !(st1.state == st1.goal)
          then { st1 with dead_ends := st1.state :: st1.dead_ends }
          else st1
        Except.ok (some (StepOut.pos st1.state, st2))
    else tryFollowFrom st acts (i + 1) rem

/-- Stable minimum by score (Python `sorted(...)[0]`): entry of
`(action index, landing cell, score)`. -/
def minByScoreAux : (ℕ × Pos × ℚ) → List (ℕ × Pos × ℚ) → (ℕ × Pos × ℚ)
  | b, [] => b
  | b, x :: xs => minByScoreAux (if x.2.2 < b.2.2 then x else b) xs

/-- The scored candidate list of the fallback exploration of
`EnhancedMazeBot.step`: valid, not a known dead end, scored by
`0.5·distance + 50·visited + 20·direction-change`. -/
def fallbackCandidates (st : Bot) : List (ℕ × Pos × ℚ) :=
  (List.range 4).filterMap fun idx =>
    let a := actionAt idx
    let new_state := moveBy st.state idx
    if is_valid st.maze new_state && !(st.dead_ends.contains new_state) then
      let is_visited := st.visited_states.contains new_state
      let direction_change :=
        match st.current_direction with
        | some d => !(a == d)
        | none => true
      let score : ℚ := (manhattan new_state st.goal : ℚ) * (1 / 2)
        + (if is_visited then 50 else 0) + (if direction_change then 20 else 0)
      some (idx, new_state, score)
    else none

/-- The dead-end escape of `EnhancedMazeBot.step`: take the first valid
move ignoring dead-end status, else stay put. -/
def escapeMove (st : Bot) : StepOut × Bot :=
  match (List.range 4).find? (fun i => is_valid st.maze (moveBy st.state i)) with
  | some idx =>
    (StepOut.pos (moveBy st.state idx),
      { st with state := moveBy st.state idx, step_count := st.step_count + 1 })
  | none => (StepOut.pos st.state, st)

/-- The fallback-exploration part of `EnhancedMazeBot.step` (everything
after the A* look-ahead declined to commit). -/
def fallbackExplore (st : Bot) : Except String (StepOut × Bot) :=
  match fallbackCandidates st with
  | [] =>
    let st1 := { st with dead_ends := st.state :: st.dead_ends }
    Except.ok (escapeMove st1)
  | v :: vs =>
    let best := minByScoreAux v vs
    let action_idx := best.1
    let next_state := best.2.1
    let revisited := st.visited_states.contains next_state
    let backtracked := revisited && (some next_state == st.last_state)
    let reward : ℚ :=
      if revisited then (if some next_state == st.last_state then -60 else -30)
      else ((manhattan st.state st.goal : ℚ) - (manhattan next_state st.goal : ℚ)) * 15
    match update_q_table (gridH st.maze) (gridW st.maze) st.q st.state
        action_idx reward next_state with
    | Except.error e => Except.error e
    | Except.ok q' =>
      let st1 := { st with
        q := q',
        visited_states := next_state :: st.visited_states,
        last_state := some st.state,
        current_direction := some (actionAt action_idx),
        state := next_state,
        step_count := st.step_count + 1,
        backtrack_count := st.backtrack_count + (if backtracked then 1 else 0) }
      let st2 :=
        if countValidMoves st1.maze st1.state == 1 && !(st1.state == st1.goal)
        then { st1 with dead_ends := st1.state :: st1.dead_ends }
        else st1
      Except.ok (StepOut.pos st1.state, st2)

/-- The stuck-check threshold of `EnhancedMazeBot.step`:
`backtrack_count > 5 * sqrt(grid_size)`, encoded exactly on integers as
`backtrack_count² > 25 * grid_size`. -/
def enhancedStuck (st : Bot) : Bool :=
  st.backtrack_count * st.backtrack_count >
      25 * (gridH st.maze * gridW st.maze)
    || st.step_count ≥ MAX_STEPS

/-- `EnhancedMazeBot.step` (`ai_bot_logic.py` lines 350-474).  `draw`
models the single `random.random()` of the A*-vs-explore decision. -/
def enhancedStep (st : Bot) (draw : ℚ) : Except String (StepOut × Bot) :=
  if enhancedStuck st then
    match solve st.maze st.start st.goal (solveFuel st.maze) with
    | none => Except.error ("fuel")
    | some [] => Except.ok (StepOut.regenerate, st)
    | some (_ :: _) =>
      Except.ok (StepOut.pos st.state,
        { st with q := decayQ st.q, backtrack_count := 0, step_count := 0 })
  else
    match get_optimal_path st st.state with
    | Except.error e => Except.error e
    | Except.ok (optimal_actions, st1) =>
      let stuck_factor : ℚ := (st.backtrack_count : ℚ) / ((max 1 st.step_count : ℕ) : ℚ)
      let follow_astar_prob : ℚ := min (95 / 100) (7 / 10 + stuck_factor * (25 / 100))
      if !optimal_actions.isEmpty && decide (draw < follow_astar_prob) then
        match tryFollowFrom st1 optimal_actions 0 (min 3 optimal_actions.length) with
        | Except.error e => Except.error e
        | Except.ok (some result) => Except.ok result
        | Except.ok none => fallbackExplore st1
      else fallbackExplore st1

/-! ## MazeGenerator (`BAse/mazegenerator.py`)

The random source is a stream of naturals: `random.randrange(n)` /
`random.choice` / `random.randint` take the head modulo the bound, and
`random.shuffle`'s Fisher-Yatesswap indices are taken directly from the
stream (one value per swap, reduced modulo `i+1`). -/

/-- Draw one value below `bound` from the stream. -/
def rtake (r : List ℕ) (bound : ℕ) : ℕ × List ℕ :=
  ((r.headD 0) % max 1 bound, r.tail)

/-- Write a grid cell addressed by a (nonnegative) integer pair. -/
def setZ (g : Grid) (p : Pos) (v : ℕ) : Grid := gridSet g p.1.toNat p.2.toNat v

/-- Swap two list entries (`x[i], x[j] = x[j], x[i]`). -/
def listSwap [Inhabited α] (l : List α) (i j : ℕ) : List α :=
  (l.set i (l.getD j default)).set j (l.getD i default)

/-- `random.shuffle`: Fisher-Yates, `for i in reversed(range(1, n))`. -/
def shuffleAux [Inhabited α] : List α → List ℕ → ℕ → List α × List ℕ
  | l, r, 0 => (l, r)
  | l, r, i + 1 =>
    let (j, r') := rtake r (i + 2)
    shuffleAux (listSwap l (i + 1) j) r' i

/-- `random.shuffle(l)`. -/
def shuffleFY [Inhabited α] (l : List α) (r : List ℕ) : List α × List ℕ :=
  shuffleAux l r (l.length - 1)

/-- Lattice-cell bounds test (`0 <= ny < cell_height and 0 <= nx < cell_width`). -/
def inLattice (ch cw : ℕ) (p : Pos) : Bool :=
  decide (0 ≤ p.1 ∧ p.1 < (ch : ℤ) ∧ 0 ≤ p.2 ∧ p.2 < (cw : ℤ))

/-- Unvisited lattice neighbours of `(y, x)` for the DFS carver, in the
source's `[(0, 1), (1, 0), (0, -1), (-1, 0)]` order, paired with the step. -/
def dfsNeighbors (ch cw : ℕ) (visited : List Pos) (y x : ℤ) :
    List (Pos × Pos) :=
  ([((0 : ℤ), (1 : ℤ)), (1, 0), (0, -1), (-1, 0)]).filterMap fun d =>
    let n : Pos := (y + d.1, x + d.2)
    if inLattice ch cw n && !(visited.contains n) then some (n, d) else none

/-- The `while stack:` loop of `MazeGenerator._depth_first_search`. -/
def dfsLoop (ch cw : ℕ) :
    ℕ → Grid → List Pos → List Pos → List ℕ → Option (Grid × List ℕ)
  | 0, _, _, _, _ => none
  | fuel + 1, mz, visited, stack, r =>
    match stack with
    | [] => some (mz, r)
    | (y, x) :: rest =>
      let ns := dfsNeighbors ch cw visited y x
      if ns.isEmpty then dfsLoop ch cw fuel mz visited rest r
      else
        let (c, r') := rtake r ns.length
        let nd := ns.getD c ((0, 0), (0, 0))
        let mz1 := setZ mz (y * 2 + 1 + nd.2.1, x * 2 + 1 + nd.2.2) 0
        let mz2 := setZ mz1 (nd.1.1 * 2 + 1, nd.1.2 * 2 + 1) 0
        dfsLoop ch cw fuel mz2 (nd.1 :: visited) (nd.1 :: (y, x) :: rest) r'

/-- `MazeGenerator._depth_first_search`. -/
def dfsCarve (h w : ℕ) (mz : Grid) (r : List ℕ) (fuel : ℕ) :
    Option (Grid × List ℕ) :=
  let ch := (h - 1) / 2
  let cw := (w - 1) / 2
  let (sy, r1) := rtake r ch
  let (sx, r2) := rtake r1 cw
  let s : Pos := ((sy : ℤ), (sx : ℤ))
  let mz1 := setZ mz (s.1 * 2 + 1, s.2 * 2 + 1) 0
  dfsLoop ch cw fuel mz1 [s] [s] r2

/-- Disjoint-set `find` without the compression step: follow parents to
the root. -/
def dsuRoot : ℕ → List (Pos × Pos) → Pos → Pos
  | 0, _, n => n
  | fuel + 1, par, n =>
    match aget par n with
    | some p => if p == n then n else dsuRoot fuel par p
    | none => n

/-- The path-compression effect of the recursive `find`: repoint every
node on the walk at the root. -/
def dsuCompress : ℕ → List (Pos × Pos) → Pos → Pos → List (Pos × Pos)
  | 0, par, _, _ => par
  | fuel + 1, par, n, root =>
    match aget par n with
    | some p => if p == n then par else dsuCompress fuel (aset par n root) p root
    | none => par

/-- `find(node)` returning the root and the compressed parent map. -/
def dsuFind (fuel : ℕ) (par : List (Pos × Pos)) (n : Pos) :
    Pos × List (Pos × Pos) :=
  let root := dsuRoot fuel par n
  (root, dsuCompress fuel par n root)

/-- `union(node1, node2)` with union by rank; returns whether a merge
happened together with the updated parent and rank maps. -/
def dsuUnion (fuel : ℕ) (par : List (Pos × Pos)) (rank : List (Pos × ℕ))
    (n1 n2 : Pos) : Bool × List (Pos × Pos) × List (Pos × ℕ) :=
  let f1 := dsuFind fuel par n1
  let f2 := dsuFind fuel f1.2 n2
  let root1 := f1.1
  let root2 := f2.1
  let par2 := f2.2
  if root1 != root2 then
    if (aget rank root1).getD 0 < (aget rank root2).getD 0 then
      (true, aset par2 root1 root2, rank)
    else
      let par3 := aset par2 root2 root1
      if (aget rank root1).getD 0 == (aget rank root2).getD 0 then
        (true, par3, aset rank root1 ((aget rank root1).getD 0 + 1))
      else (true, par3, rank)
  else (false, par2, rank)

/-- All lattice cells in row-major order. -/
def latticeCells (ch cw : ℕ) : List Pos :=
  ((List.range ch).map (fun y =>
    (List.range cw).map (fun x => ((y : ℤ), (x : ℤ))))).flatten

/-- The candidate wall list of `_kruskal_algorithm`, in construction
order: per cell, first the wall to the right, then the wall below. -/
def kruskalWalls (ch cw : ℕ) : List (Pos × Pos) :=
  (latticeCells ch cw).flatMap fun c =>
    (if c.2 < (cw : ℤ) - 1 then [(c, (c.1, c.2 + 1))] else []) ++
    (if c.1 < (ch : ℤ) - 1 then [(c, (c.1 + 1, c.2))] else [])

/-- `MazeGenerator._kruskal_algorithm`. -/
def kruskalCarve (h w : ℕ) (mz : Grid) (r : List ℕ) : Grid × List ℕ :=
  let ch := (h - 1) / 2
  let cw := (w - 1) / 2
  let cells := latticeCells ch cw
  let mz1 := cells.foldl (fun m c => setZ m (c.1 * 2 + 1, c.2 * 2 + 1) 0) mz
  let par0 := cells.map (fun c => (c, c))
  let rank0 : List (Pos × ℕ) := cells.map (fun c => (c, 0))
  let (walls, r1) := shuffleFY (kruskalWalls ch cw) r
  let fuel := ch * cw + 1
  let res := walls.foldl
    (fun (st : Grid × List (Pos × Pos) × List (Pos × ℕ)) wall =>
      let (m, par, rank) := st
      let u := dsuUnion fuel par rank wall.1 wall.2
      if u.1 then
        let wy := wall.1.1 * 2 + 1 + (wall.2.1 - wall.1.1)
        let wx := wall.1.2 * 2 + 1 + (wall.2.2 - wall.1.2)
        (setZ m (wy, wx) 0, u.2.1, u.2.2)
      else (m, u.2.1, u.2.2))
    (mz1, par0, rank0)
  (res.1, r1)

/-- One step outcome of Wilson's random walk loop body. -/
def wilsonStep (ch cw : ℕ) (path : List Pos) (y x : ℤ) (r : List ℕ) :
    List Pos × ℤ × ℤ × List ℕ :=
  let (c, r') := rtake r 4
  let d := ([((0 : ℤ), (1 : ℤ)), (1, 0), (0, -1), (-1, 0)]).getD c (0, 0)
  let ny := y + d.1
  let nx := x + d.2
  if !(inLattice ch cw (ny, nx)) then (path, y, x, r')
  else
    match path.findIdx? (fun p => p == (ny, nx)) with
    | some i => (path.take (i + 1), ny, nx, r')
    | none => (path ++ [(ny, nx)], ny, nx, r')

/-- Wilson's `while not visited[y, x]:` random-walk loop (with loop
erasure on self-intersection). -/
def wilsonWalk (ch cw : ℕ) (visited : List Pos) :
    ℕ → List Pos → ℤ → ℤ → List ℕ → Option (List Pos × List ℕ)
  | 0, _, _, _, _ => none
  | fuel + 1, path, y, x, r =>
    if visited.contains (y, x) then some (path, r)
    else
      let s := wilsonStep ch cw path y x r
      wilsonWalk ch cw visited fuel s.1 s.2.1 s.2.2.1 s.2.2.2

/-- Carve a loop-erased walk into the maze and mark its cells visited
(the `for i in range(len(path)-1)` loop). -/
def wilsonCarvePath (mz : Grid) (visited : List Pos) (path : List Pos) :
    Grid × List Pos :=
  match path with
  | [] => (mz, visited)
  | [_] => (mz, visited)
  | c :: n :: rest =>
    let mz1 := setZ mz (c.1 * 2 + 1, c.2 * 2 + 1) 0
    let mz2 := setZ mz1 (n.1 * 2 + 1, n.2 * 2 + 1) 0
    let mz3 := setZ mz2 (c.1 * 2 + 1 + (n.1 - c.1), c.2 * 2 + 1 + (n.2 - c.2)) 0
    wilsonCarvePath mz3 (c :: visited) (n :: rest)

/-- The `while unvisited:` loop of `_wilson_algorithm`. -/
def wilsonLoop (ch cw : ℕ) :
    ℕ → Grid → List Pos → List ℕ → Option (Grid × List ℕ)
  | 0, _, _, _ => none
  | fuel + 1, mz, visited, r =>
    let unvisited := (latticeCells ch cw).filter (fun c => !(visited.contains c))
    if unvisited.isEmpty then some (mz, r)
    else
      let (c, r1) := rtake r unvisited.length
      let s := unvisited.getD c (0, 0)
      match wilsonWalk ch cw visited fuel [s] s.1 s.2 r1 with
      | none => none
      | some (path, r2) =>
        let cv := wilsonCarvePath mz visited path
        wilsonLoop ch cw fuel cv.1 cv.2 r2

/-- `MazeGenerator._wilson_algorithm`. -/
def wilsonCarve (h w : ℕ) (mz : Grid) (r : List ℕ) (fuel : ℕ) :
    Option (Grid × List ℕ) :=
  let ch := (h - 1) / 2
  let cw := (w - 1) / 2
  let (sy, r1) := rtake r ch
  let (sx, r2) := rtake r1 cw
  let mz1 := setZ mz ((sy : ℤ) * 2 + 1, (sx : ℤ) * 2 + 1) 0
  wilsonLoop ch cw fuel mz1 [((sy : ℤ), (sx : ℤ))] r2

/-! ### Entry/exit creation (`MazeGenerator._create_entry_exit`) -/

/-- One straight-line edge path record `(y, x, edge_y, edge_x, direction)`. -/
structure EdgePath where
  cy : ℤ
  cx : ℤ
  ey : ℤ
  ex : ℤ
  dir : ℕ
deriving Repr, DecidableEq

/-- The direction table `[(0, -1), (1, 0), (0, 1), (-1, 0)]` used by
`_create_entry_exit`. -/
def eeDirs : List Pos := [(0, -1), (1, 0), (0, 1), (-1, 0)]

/-- Trace a straight ray from `(y, x)` towards the edge; `some` final
cell if no wall was hit (the loop of the edge-path search). -/
def traceToEdge (h w : ℕ) (mz : Grid) : ℕ → ℤ → ℤ → Pos → Option Pos
  | 0, _, _, _ => none
  | fuel + 1, cy, cx, d =>
    if decide (0 < cy ∧ cy < (h : ℤ) - 1 ∧ 0 < cx ∧ cx < (w : ℤ) - 1) then
      let cy' := cy + d.1
      let cx' := cx + d.2
      if cellZ mz (cy', cx') == 1 then none
      else traceToEdge h w mz fuel cy' cx' d
    else some (cy, cx)

/-- Trace a straight ray carving every visited cell open (the forced
corridor of `_create_entry_exit`). -/
def carveToEdge (h w : ℕ) : ℕ → Grid → ℤ → ℤ → Pos → Grid × Pos
  | 0, mz, cy, cx, _ => (mz, (cy, cx))
  | fuel + 1, mz, cy, cx, d =>
    if decide (0 < cy ∧ cy < (h : ℤ) - 1 ∧ 0 < cx ∧ cx < (w : ℤ) - 1) then
      let cy' := cy + d.1
      let cx' := cx + d.2
      carveToEdge h w fuel (setZ mz (cy', cx') 0) cy' cx' d
    else (mz, (cy, cx))

/-- Interior path cells (`maze[y, x] == 0`, borders excluded), row-major. -/
def pathCellsOf (h w : ℕ) (mz : Grid) : List Pos :=
  (((List.range (h - 2)).map (fun y =>
    (List.range (w - 2)).map (fun x => (((y + 1 : ℕ) : ℤ), ((x + 1 : ℕ) : ℤ))))).flatten).filter
    (fun p => cellZ mz p == 0)

/-- The fallback cross-carving used when no path cell exists at all. -/
def carveCross (h w : ℕ) (mz : Grid) : Grid :=
  let mz1 := ((List.range (h - 2)).filter (fun y => y % 2 == 0)).foldl
    (fun m y => (List.range (w - 2)).foldl
      (fun m' x => setZ m' (((y + 1 : ℕ) : ℤ), ((x + 1 : ℕ) : ℤ)) 0) m) mz
  ((List.range (w - 2)).filter (fun x => x % 2 == 0)).foldl
    (fun m x => (List.range (h - 2)).foldl
      (fun m' y => setZ m' (((y + 1 : ℕ) : ℤ), ((x + 1 : ℕ) : ℤ)) 0) m) mz1

/-- All straight-line edge paths from the candidate cells. -/
def edgePathsOf (h w : ℕ) (mz : Grid) (valid_cells : List Pos) :
    List EdgePath :=
  valid_cells.flatMap fun c =>
    (List.range 4).filterMap fun dir =>
      match traceToEdge h w mz (h + w + 2) c.1 c.2 (eeDirs.getD dir (0, 0)) with
      | none => none
      | some e =>
        if e.1 == 0 || e.1 == (h : ℤ) - 1 || e.2 == 0 || e.2 == (w : ℤ) - 1 then
          some ⟨c.1, c.2, e.1, e.2, dir⟩
        else none

/-- Set every border cell except the entry and exit to WALL. -/
def addBorder (h w : ℕ) (mz : Grid) (entry exitp : Pos) : Grid :=
  ((List.range h).flatMap (fun y => (List.range w).map (fun x =>
      (((y : ℕ) : ℤ), ((x : ℕ) : ℤ))))).foldl
    (fun m p =>
      if (p.1 == 0 || p.1 == (h : ℤ) - 1 || p.2 == 0 || p.2 == (w : ℤ) - 1)
          && !(p == entry) && !(p == exitp)
      then setZ m p 1 else m) mz

/-- `MazeGenerator._create_entry_exit`: returns the updated grid, the
entry point, the exit point and the remaining random stream. -/
def createEntryExit (h w : ℕ) (mz : Grid) (r : List ℕ) :
    Grid × Pos × Pos × List ℕ :=
  let pc0 := pathCellsOf h w mz
  let mz1 := if pc0.isEmpty then carveCross h w mz else mz
  let path_cells := if pc0.isEmpty then pathCellsOf h w mz1 else pc0
  let center_y : ℤ := (h : ℤ) / 2
  let center_x : ℤ := (w : ℤ) / 2
  let buffer : ℤ := max 2 ((min (h : ℤ) (w : ℤ)) / 10)
  let vc0 := path_cells.filter (fun p =>
    decide (buffer < |p.1 - center_y| ∨ buffer < |p.2 - center_x|))
  let valid_cells := if vc0.isEmpty then path_cells else vc0
  let ep0 := edgePathsOf h w mz1 valid_cells
  let forced :=
    if ep0.isEmpty then
      if valid_cells.isEmpty then (mz1, ([] : List EdgePath), r)
      else
        let (ci, r1) := rtake r valid_cells.length
        let c := valid_cells.getD ci (0, 0)
        let (dir, r2) := rtake r1 4
        let cv := carveToEdge h w (h + w + 2) mz1 c.1 c.2 (eeDirs.getD dir (0, 0))
        (cv.1, [(⟨c.1, c.2, cv.2.1, cv.2.2, dir⟩ : EdgePath)], r2)
    else (mz1, ep0, r)
  let mz2 := forced.1
  let edge_paths := forced.2.1
  let r' := forced.2.2
  if 2 ≤ edge_paths.length then
    let sorted := edge_paths.mergeSort (fun a b => a.dir ≤ b.dir)
    let entry_path := sorted.headD ⟨0, 0, 0, 0, 0⟩
    let exit_path :=
      match sorted.reverse.find? (fun p =>
          (max p.dir entry_path.dir) - (min p.dir entry_path.dir) == 2) with
      | some p => p
      | none => sorted.getLastD ⟨0, 0, 0, 0, 0⟩
    let entry : Pos := (entry_path.ey, entry_path.ex)
    let exitp : Pos := (exit_path.ey, exit_path.ex)
    let mz3 := setZ (setZ mz2 entry 0) exitp 0
    (addBorder h w mz3 entry exitp, entry, exitp, r')
  else
    match edge_paths with
    | [] => (mz2, (0, 0), (0, 0), r')
    | p :: _ =>
      let entry : Pos := (p.ey, p.ex)
      let opposite := (p.dir + 2) % 4
      let cv := carveToEdge h w (h + w + 2) mz2 p.cy p.cx (eeDirs.getD opposite (0, 0))
      let exitp : Pos := cv.2
      let mz3 := setZ (setZ cv.1 entry 0) exitp 0
      (addBorder h w mz3 entry exitp, entry, exitp, r')

/-- The three generation algorithms. -/
inductive Alg where
  | dfs
  | kruskal
  | wilson
deriving Repr, DecidableEq

/-- Dispatch of the carving algorithm inside `generate_maze`. -/
def carveBy (alg : Alg) (h w : ℕ) (mz : Grid) (r : List ℕ) (fuel : ℕ) :
    Option (Grid × List ℕ) :=
  match alg with
  | Alg.dfs => dfsCarve h w mz r fuel
  | Alg.kruskal => some (kruskalCarve h w mz r)
  | Alg.wilson => wilsonCarve h w mz r fuel

/-- The retry loop of `MazeGenerator.generate_maze` (the Python version
retries by unbounded recursion; `retry` is the fuel of that recursion). -/
def generateMazeLoop (h w : ℕ) (alg : Alg) :
    ℕ → List ℕ → ℕ → Option (Grid × Pos × Pos × List ℕ)
  | 0, _, _ => none
  | retry + 1, r, fuel =>
    let mz0 : Grid := List.replicate h (List.replicate w 1)
    match carveBy alg h w mz0 r fuel with
    | none => none
    | some (mz1, r1) =>
      let ee := createEntryExit h w mz1 r1
      if validateMaze ee.1 ee.2.1 ee.2.2.1 (h * w + 1) then
        some (ee.1, ee.2.1, ee.2.2.1, ee.2.2.2)
      else generateMazeLoop h w alg retry ee.2.2.2 fuel

/-- `MazeGenerator(width, height, algorithm).generate_maze()`: even
dimensions are bumped to the next odd value by the constructor. -/
def generate_maze (width height : ℕ) (alg : Alg) (r : List ℕ)
    (retry fuel : ℕ) : Option (Grid × Pos × Pos × List ℕ) :=
  let w := if width % 2 == 1 then width else width + 1
  let h := if height % 2 == 1 then height else height + 1
  generateMazeLoop h w alg retry r fuel

/-! ## AdaptiveMazeGame.generate_maze (`logic/adaptive_logic.py`) -/

/-- The `possible_exits` scan: inner-border open cells (top/bottom rows
interleaved per column, then left/right columns per row), checked against
the grid after START was placed, using the *parameter* width/height. -/
def possibleExits (width height : ℕ) (mz : Grid) : List Pos :=
  ((List.range (width - 2)).flatMap fun c0 =>
    let col : ℤ := (c0 : ℤ) + 1
    (if cellZ mz (1, col) == 0 then [((1 : ℤ), col)] else []) ++
    (if cellZ mz ((height : ℤ) - 2, col) == 0 then [((height : ℤ) - 2, col)] else [])) ++
  ((List.range (height - 2)).flatMap fun r0 =>
    let row : ℤ := (r0 : ℤ) + 1
    (if cellZ mz (row, 1) == 0 then [(row, (1 : ℤ))] else []) ++
    (if cellZ mz (row, (width : ℤ) - 2) == 0 then [(row, (width : ℤ) - 2)] else []))

/-- Number of open 4-neighbours of a candidate exit (bounds checked
against the parameter height/width, as in the source). -/
def openPathsAt (width height : ℕ) (mz : Grid) (p : Pos) : ℕ :=
  (([((-1 : ℤ), (0 : ℤ)), (1, 0), (0, -1), (0, 1)]).filter fun d =>
    let n : Pos := (p.1 + d.1, p.2 + d.2)
    decide (0 ≤ n.1 ∧ n.1 < (height : ℤ) ∧ 0 ≤ n.2 ∧ n.2 < (width : ℤ)) &&
      cellZ mz n == 0).length

/-- The `valid_exits` filter: at least two open neighbouring paths. -/
def validExits (width height : ℕ) (mz : Grid) : List Pos :=
  (possibleExits width height mz).filter (fun p => 2 ≤ openPathsAt width height mz p)

/-- The part of `AdaptiveMazeGame.generate_maze` that runs after the
`MazeGenerator` returned a grid: place START (code 2) at the centre and,
when a qualifying inner-border cell exists, GOAL (code 3) on a randomly
chosen one.  Returns the grid, the START cell, the GOAL cell (if any was
placed) and the remaining stream. -/
def adaptivePlace (width height : ℕ) (mz : Grid) (r : List ℕ) :
    Grid × Pos × Option Pos × List ℕ :=
  let center : Pos := ((height : ℤ) / 2, (width : ℤ) / 2)
  let mz1 := setZ mz center 2
  let ve := validExits width height mz1
  if ve.isEmpty then (mz1, center, none, r)
  else
    let (i, r1) := rtake r ve.length
    let e := ve.getD i (0, 0)
    (setZ mz1 e 3, center, some e, r1)

/-- `AdaptiveMazeGame.generate_maze()`: run the generator with the game's
maze parameters, then place START and GOAL. -/
def adaptiveGenerate (width height : ℕ) (alg : Alg) (r : List ℕ)
    (retry fuel : ℕ) : Option (Grid × Pos × Option Pos × List ℕ) :=
  match generate_maze width height alg r retry fuel with
  | none => none
  | some (mz, _, _, r1) => some (adaptivePlace width height mz r1)

/-! ## Specification-side helper predicates -/

/-- Number of cells of code `c` in a grid. -/
def countCode (g : Grid) (c : ℕ) : ℕ :=
  (g.map (fun row => row.countP (fun v => v == c))).sum

/-- One step of a 4-connected path whose target cell is in bounds and not
a wall (the cells the A* solver and the bots may enter). -/
def stepOkFree (g : Grid) (p q : Pos) : Bool :=
  decide (adj p q) && inB g q && !(cellZ g q == 1)

/-- A 4-connected wall-free chain (the start cell itself unconstrained). -/
def chainFree (g : Grid) : List Pos → Bool
  | [] => true
  | [_] => true
  | p :: q :: rest => stepOkFree g p q && chainFree g (q :: rest)

/-- Whether a step result is the `"regenerate"` signal. -/
def isRegen (r : Except String (StepOut × Bot)) : Bool :=
  match r with
  | Except.ok (StepOut.regenerate, _) => true
  | _ => false

/-- `follow_astar_prob` as a function of the bot's counters. -/
def followProb (st : Bot) : ℚ :=
  min (95 / 100)
    (7 / 10 + (st.backtrack_count : ℚ) / ((max 1 st.step_count : ℕ) : ℚ) * (25 / 100))

/-- The landing cell the look-ahead considers at index `i`. -/
def followCell (st : Bot) (acts : List ℕ) (i : ℕ) : Pos :=
  moveBy st.state (acts.getD i 0)

/-- Whether the look-ahead at index `i` commits (not a known dead end and
a valid move). -/
def followOk (st : Bot) (acts : List ℕ) (i : ℕ) : Bool :=
  !(st.dead_ends.contains (followCell st acts i)) &&
    is_valid st.maze (followCell st acts i)

/-! ## Concrete instances used by witnesses and counterexamples -/

/-- A bot on the 1×2 maze `[[2, 3]]` at training level 13 (epsilon floor,
so a `0.5` uniform draw exploits). -/
def c5bot : Bot := {
  maze := [[2, 3]], level := 13, q := qZero, visit_counts := [],
  visited_states := [], backtrack_count := 0, step_count := 0,
  visited_counts := [], last_state := none,
  start := (0, 0), goal := (0, 1), state := (0, 0),
  use_astar_hints := true, a_star_cache := [], dead_ends := [],
  current_direction := none }

/-- The bot state after one `MazeBot.step` of `c5bot` (the up-move is
invalid; the Q-value of action 0 at the start drops to `-2`). -/
def c5bot1 : Bot :=
  match mazeBotStep c5bot (1 / 2) 0 with
  | Except.ok (_, st) => st
  | _ => c5bot

/-- The 7×6 grid on which the A* solver returns a non-minimal path. -/
def c2grid : Grid :=
  [[0, 0, 0, 0, 1, 1],
   [0, 1, 1, 1, 1, 1],
   [0, 0, 0, 0, 0, 1],
   [0, 0, 1, 1, 0, 1],
   [0, 0, 0, 0, 0, 0],
   [0, 1, 1, 1, 1, 0],
   [0, 0, 0, 0, 0, 0]]

/-- A 13-edge wall-free path from `(6,4)` to `(0,3)` in `c2grid`, two
edges shorter than what `solve` returns there. -/
def c2short : List Pos :=
  [(6, 4), (6, 3), (6, 2), (6, 1), (6, 0), (5, 0), (4, 0), (3, 0), (2, 0),
   (1, 0), (0, 0), (0, 1), (0, 2), (0, 3)]

/-- The maze of the hint-following counterexample: the shortest path from
`(1,1)` to the goal `(3,3)` is right, right, down, down; `(2,1)` is an
off-path pocket. -/
def c6maze : Grid :=
  [[1, 1, 1, 1, 1],
   [1, 2, 0, 0, 1],
   [1, 0, 1, 0, 1],
   [1, 1, 1, 3, 1],
   [1, 1, 1, 1, 1]]

/-- A bot on `c6maze` whose dead-end memory contains the first cell of
the hinted path. -/
def c6bot : Bot := { c5bot with
  maze := c6maze, start := (1, 1), goal := (3, 3), state := (1, 1),
  dead_ends := [(1, 2)], step_count := 1 }

/-- The bot state after one `EnhancedMazeBot.step` of `c6bot`. -/
def c6bot1 : Bot :=
  match enhancedStep c6bot 0 with
  | Except.ok (_, st) => st
  | _ => c6bot

/-- The cache-updated intermediate state of the `c6bot` step (after
`get_optimal_path` stored the hinted action sequence). -/
def c6bot0 : Bot := { c6bot with
  a_star_cache := aset c6bot.a_star_cache ((1, 1), (3, 3)) [3, 3, 1, 1] }

/-- The two-chamber maze of the stuck-check counterexample: START `(1,1)`
is connected to GOAL `(3,1)`, while the pocket `(1,5)` is sealed off. -/
def c3maze : Grid :=
  [[1, 1, 1, 1, 1, 1, 1],
   [1, 2, 1, 1, 1, 0, 1],
   [1, 0, 1, 1, 1, 1, 1],
   [1, 3, 1, 1, 1, 1, 1],
   [1, 1, 1, 1, 1, 1, 1]]

/-- A bot trapped in the sealed pocket of `c3maze` with the backtrack
counter past the stuck threshold (`30² = 900 > 25·35 = 875`). -/
def c3bot : Bot := { c5bot with
  maze := c3maze, start := (1, 1), goal := (3, 1), state := (1, 5),
  backtrack_count := 30, step_count := 10 }

/-- The bot state after one `EnhancedMazeBot.step` of `c3bot`. -/
def c3bot1 : Bot :=
  match enhancedStep c3bot 0 with
  | Except.ok (_, st) => st
  | _ => c3bot

/-- The 3×3 maze of the exploration counterexample: the cell above the
centre is a wall. -/
def c7maze : Grid :=
  [[0, 1, 0],
   [0, 0, 0],
   [0, 0, 0]]

/-- Q-update iteration with constant arguments, starting from zeros
(`next_state` equal to `state`: the self-transition). -/
def qIterGood (r : ℚ) : ℕ → QTable
  | 0 => qZero
  | n + 1 => updateCore (qIterGood r n) 1 1 0 r 1 1

/-- Q-update iteration with constant arguments, starting from zeros
(`next_state` a neighbouring cell, as in a transition on a trivial 3×3
grid with a single optimal action from START). -/
def qIterBad (r : ℚ) : ℕ → QTable
  | 0 => qZero
  | n + 1 => updateCore (qIterBad r n) 1 1 0 r 1 2

/-- The random stream of the adaptive-pipeline counterexample: the 111
Fisher-Yates indices place every edge of a spanning tree that avoids the
four lattice edges around the centre pillar `(8,8)` ahead of all other
walls; the trailing draws (all zero, supplied by the empty stream) pick
cell `(1,1)` and direction left for the forced corridor, and the first
qualifying exit. -/
def c4stream : List ℕ :=
  [102, 100, 98, 96, 94, 92, 90, 87, 85, 83, 81, 79, 77, 75, 72, 70, 68, 66,
   64, 62, 60, 59, 58, 57, 56, 55, 54, 53, 52, 51, 50, 49, 48, 47, 45, 42,
   40, 38, 36, 34, 32, 30, 27, 25, 23, 21, 19, 17, 15, 52, 48, 40, 30, 21,
   52, 30, 30, 54, 50, 45, 34, 25, 17, 40, 21, 45, 30, 25, 34, 17, 21, 17,
   38, 36, 32, 27, 23, 19, 15, 17, 30, 25, 19, 21, 27, 17, 23, 15, 23, 19,
   21, 17, 15, 15, 17, 15, 15, 14, 13, 12, 11, 10, 9, 8, 7, 6, 5, 4, 3, 2, 1]

/-- The grid `AdaptiveMazeGame.generate_maze` produces at parameters
`(17, 17, kruskal)` under `c4stream`: START (code 2) sits on the centre
pillar `(8,8)`, whose four neighbours are walls. -/
def c4grid : Grid :=
  [[1, 1, 1, 1, 1, 1, 1, 1, 1, 1, 1, 1, 1, 1, 1, 1, 1],
   [0, 3, 0, 0, 0, 0, 0, 0, 0, 0, 0, 0, 0, 0, 0, 0, 0],
   [1, 0, 1, 0, 1, 0, 1, 0, 1, 0, 1, 0, 1, 0, 1, 0, 1],
   [1, 0, 1, 0, 1, 0, 1, 0, 1, 0, 1, 0, 1, 0, 1, 0, 1],
   [1, 0, 1, 0, 1, 0, 1, 0, 1, 0, 1, 0, 1, 0, 1, 0, 1],
   [1, 0, 1, 0, 1, 0, 1, 0, 1, 0, 1, 0, 1, 0, 1, 0, 1],
   [1, 0, 1, 0, 1, 0, 1, 0, 1, 0, 1, 0, 1, 0, 1, 0, 1],
   [1, 0, 1, 0, 1, 0, 1, 0, 1, 0, 1, 0, 1, 0, 1, 0, 1],
   [1, 0, 1, 1, 1, 1, 1, 1, 2, 1, 1, 1, 1, 1, 1, 1, 1],
   [1, 0, 1, 0, 1, 0, 1, 0, 1, 0, 1, 0, 1, 0, 1, 0, 1],
   [1, 0, 1, 0, 1, 0, 1, 0, 1, 0, 1, 0, 1, 0, 1, 0, 1],
   [1, 0, 1, 0, 1, 0, 1, 0, 1, 0, 1, 0, 1, 0, 1, 0, 1],
   [1, 0, 1, 0, 1, 0, 1, 0, 1, 0, 1, 0, 1, 0, 1, 0, 1],
   [1, 0, 1, 0, 1, 0, 1, 0, 1, 0, 1, 0, 1, 0, 1, 0, 1],
   [1, 0, 1, 0, 1, 0, 1, 0, 1, 0, 1, 0, 1, 0, 1, 0, 1],
   [1, 0, 0, 0, 0, 0, 0, 0, 0, 0, 0, 0, 0, 0, 0, 0, 1],
   [1, 1, 1, 1, 1, 1, 1, 1, 1, 1, 1, 1, 1, 1, 1, 1, 1]]

/-- The grid, entry and exit `MazeGenerator(5, 5, dfs).generate_maze()`
produces under the all-zero (empty) random stream. -/
def w1grid : Grid :=
  [[1, 1, 1, 1, 1],
   [0, 0, 0, 0, 0],
   [1, 1, 1, 0, 1],
   [1, 0, 0, 0, 1],
   [1, 1, 1, 1, 1]]

/-! # Theorems -/

/-! ## Generic helper lemmas -/

theorem adj_cases {p q : Pos} (h : adj p q) :
    q = (p.1 - 1, p.2) ∨ q = (p.1 + 1, p.2) ∨
    q = (p.1, p.2 - 1) ∨ q = (p.1, p.2 + 1) := by
  obtain ⟨a, b⟩ := q
  obtain ⟨x, y⟩ := p
  unfold adj at h
  simp only [Prod.mk.injEq]
  omega

/-- If every neighbour of `s` is blocked, nothing except `s` itself is
open-reachable from `s`. -/
theorem reachOpen_isolated {g : Grid} {s t : Pos}
    (hblock : ∀ q, adj s q → ¬(inB g q = true ∧ cellZ g q = 0))
    (h : ReachOpen g s t) : t = s := by
  induction h with
  | refl => rfl
  | step hr hadj hb hc ih =>
    subst ih
    exact absurd ⟨hb, hc⟩ (hblock _ hadj)

/-- Each direction step of `dirs4` produces an adjacent cell. -/
theorem adj_of_dir {d : Pos} (hd : d ∈ dirs4) (p : Pos) :
    adj p (p.1 + d.1, p.2 + d.2) := by
  simp only [dirs4, List.mem_cons, List.mem_singleton, List.not_mem_nil,
    or_false] at hd
  unfold adj
  rcases hd with h | h | h | h <;> subst h <;> simp

/-! ## Breadth-first-search soundness (used by C1) -/

theorem bfsExpand_sound (g : Grid) (entry p : Pos) (queue visited : List Pos)
    (hp : ReachOpen g entry p) (hq : ∀ x ∈ queue, ReachOpen g entry x) :
    ∀ x ∈ (bfsExpand g p queue visited).1, ReachOpen g entry x := by
  unfold bfsExpand
  have main : ∀ (ds : List Pos), (∀ d ∈ ds, d ∈ dirs4) →
      ∀ (s : List Pos × List Pos), (∀ x ∈ s.1, ReachOpen g entry x) →
      ∀ x ∈ (ds.foldl (fun (s : List Pos × List Pos) d =>
        let nb : Pos := (p.1 + d.1, p.2 + d.2)
        if inB g nb && cellZ g nb == 0 && !(s.2.contains nb) then
          (s.1 ++ [nb], nb :: s.2)
        else s) s).1, ReachOpen g entry x := by
    intro ds
    induction ds with
    | nil => intro _ s hs x hx; exact hs x hx
    | cons d rest ih =>
      intro hmem s hs
      simp only [List.foldl_cons]
      apply ih (fun d' hd' => hmem d' (List.mem_cons_of_mem _ hd'))
      intro x hx
      by_cases hcond : (inB g (p.1 + d.1, p.2 + d.2) &&
          cellZ g (p.1 + d.1, p.2 + d.2) == 0 &&
          !(s.2.contains (p.1 + d.1, p.2 + d.2))) = true
      · simp only [hcond, if_true] at hx
        rcases List.mem_append.mp hx with h | h
        · exact hs x h
        · simp only [List.mem_singleton] at h
          subst h
          simp only [Bool.and_eq_true, beq_iff_eq] at hcond
          exact ReachOpen.step hp (adj_of_dir (hmem d (List.mem_cons_self _ _)) p)
            hcond.1.1 hcond.1.2
      · simp only [Bool.not_eq_true] at hcond
        simp only [hcond, Bool.false_eq_true, if_false] at hx
        exact hs x hx
  exact main dirs4 (fun d hd => hd) (queue, visited) hq

theorem bfsLoop_sound (g : Grid) (entry target : Pos) :
    ∀ (fuel : ℕ) (queue visited : List Pos),
    (∀ x ∈ queue, ReachOpen g entry x) →
    bfsLoop g target fuel queue visited = true → ReachOpen g entry target := by
  intro fuel
  induction fuel with
  | zero => intro queue visited _ h; simp [bfsLoop] at h
  | succ n ih =>
    intro queue visited hq h
    match queue with
    | [] => simp [bfsLoop] at h
    | q :: qs =>
      unfold bfsLoop at h
      by_cases heq : (q == target) = true
      · have : q = target := by simpa using heq
        subst this
        exact hq q (List.mem_cons_self _ _)
      · simp only [heq, Bool.false_eq_true, if_false] at h
        have hqreach := hq q (List.mem_cons_self _ _)
        exact ih _ _
          (bfsExpand_sound g entry q qs visited hqreach
            (fun x hx => hq x (List.mem_cons_of_mem _ hx))) h

/-- A successful `_validate_maze` implies that the exit point is
breadth-first reachable from the entry point over EMPTY cells. -/
theorem validateMaze_sound (g : Grid) (entry exitp : Pos) (fuel : ℕ)
    (h : validateMaze g entry exitp fuel = true) : ReachOpen g entry exitp := by
  unfold validateMaze at h
  by_cases hc : (!(cellZ g entry == 0) || !(cellZ g exitp == 0)) = true
  · simp [hc] at h
  · simp only [hc, Bool.false_eq_true, if_false] at h
    exact bfsLoop_sound g entry exitp fuel [entry] [entry]
      (fun x hx => by
        simp only [List.mem_singleton] at hx
        subst hx
        exact ReachOpen.refl) h

set_option maxHeartbeats 4000000 in
/-- Any grid the generator's retry loop returns passed validation. -/
theorem generateMazeLoop_validated (h w : ℕ) (alg : Alg) :
    ∀ (retry : ℕ) (r : List ℕ) (fuel : ℕ) (g : Grid) (e x : Pos) (r' : List ℕ),
    generateMazeLoop h w alg retry r fuel = some (g, e, x, r') →
    validateMaze g e x (h * w + 1) = true := by
  intro retry
  induction retry with
  | zero => intro r fuel g e x r' hres; simp [generateMazeLoop] at hres
  | succ n ih =>
    intro r fuel g e x r' hres
    unfold generateMazeLoop at hres
    match hc : carveBy alg h w (List.replicate h (List.replicate w 1)) r fuel with
    | none => simp only [hc] at hres; exact Option.noConfusion hres
    | some (mz1, r1) =>
      simp only [hc] at hres
      split at hres
      · simp only [Option.some.injEq, Prod.mk.injEq] at hres
        obtain ⟨h1, h2, h3, _⟩ := hres
        subst h1; subst h2; subst h3
        assumption
      · exact ih _ _ _ _ _ _ hres

/-- C1: for every width and height at least 5 and each of the three
algorithms, whenever `MazeGenerator.generate_maze()` returns a grid, that
grid passed the internal breadth-first validation, hence the exit point
is reachable from the entry point through EMPTY cells; an unvalidated
construction is never returned (the loop retries instead). -/
theorem C1_generator_connectivity (width height : ℕ) (alg : Alg)
    (r : List ℕ) (retry fuel : ℕ) (g : Grid) (e x : Pos) (r' : List ℕ)
    (_hw : 5 ≤ width) (_hh : 5 ≤ height)
    (hres : generate_maze width height alg r retry fuel = some (g, e, x, r')) :
    ReachOpen g e x := by
  unfold generate_maze at hres
  exact validateMaze_sound _ _ _ _
    (generateMazeLoop_validated _ _ alg retry r fuel g e x r' hres)

/-- Witness for C1 at `(5, 5, dfs)` with the empty random stream. -/
theorem C1_generator_connectivity_witness :
    (5 ≤ 5 ∧ generate_maze 5 5 Alg.dfs [] 3 100 = some (w1grid, (1, 0), (1, 4), [])) ∧
    ReachOpen w1grid (1, 0) (1, 4) :=
  ⟨⟨le_refl 5, rfl⟩,
    C1_generator_connectivity 5 5 Alg.dfs [] 3 100 w1grid (1, 0) (1, 4) []
      (le_refl 5) (le_refl 5) rfl⟩

/-- C2 (code bug): on `c2grid` the A* solver returns a 15-edge path
although a 13-edge wall-free path between the same endpoints exists — the
"skip if already in the open set" push policy leaves a stale heap
priority, so the search is not guaranteed optimal. -/
theorem C2_solver_suboptimal :
    (solve c2grid (6, 4) (0, 3) 200).map List.length = some 16 ∧
    chainFree c2grid c2short = true ∧
    c2short.head? = some (6, 4) ∧
    c2short.getLast? = some (0, 3) ∧
    c2short.length = 14 := by
  refine ⟨by rfl, by decide, by decide, by decide, by decide⟩

set_option maxHeartbeats 2000000 in
/-- C5 (code bug): on the 1×2 maze `[[2, 3]]` the base bot's second step
raises a numpy `IndexError` inside `update_q_table` (action "down" from
the bottom row indexes `q_table[1, 0]` with axis-0 size 1), instead of
recovering internally as the specification promises. -/
theorem C5_step_raises :
    mazeBotStep c5bot (1 / 2) 0 = Except.ok (StepOut.pos (0, 0), c5bot1) ∧
    c5bot1.q 0 0 0 = -2 ∧
    mazeBotStep c5bot1 (1 / 2) 0 = Except.error ("IndexError") := by
  refine ⟨?_, ?_, ?_⟩ <;> with_unfolding_all rfl

/-! ## C3: the stuck check -/

/-- C3 (counterexample): `c3bot` is past the stuck threshold and no path
exists from its *current* position `(1,5)` to the goal, yet
`EnhancedMazeBot.step` does not return `"regenerate"` — the solver is run
from the maze's START `(1,1)` instead of the current position. -/
theorem C3_stuck_from_start_counterexample :
    enhancedStuck c3bot = true ∧
    solve c3maze c3bot.state c3bot.goal (solveFuel c3maze) = some [] ∧
    isRegen (enhancedStep c3bot 0) = false ∧
    enhancedStep c3bot 0 = Except.ok (StepOut.pos (1, 5), c3bot1) := by
  refine ⟨?_, ?_, ?_, ?_⟩ <;> with_unfolding_all rfl

/-- C3 (amended): past the stuck threshold, `EnhancedMazeBot.step` runs
the A* solver from the maze's START point; if that returns the empty
path the step returns `"regenerate"` unchanged, and if it returns a
nonempty path the step multiplies every Q-entry by `0.9`, resets both
counters and reports the unchanged current position. -/
theorem C3_stuck_check_amended (st : Bot) (draw : ℚ)
    (h : enhancedStuck st = true) :
    (solve st.maze st.start st.goal (solveFuel st.maze) = some [] →
      enhancedStep st draw = Except.ok (StepOut.regenerate, st)) ∧
    (∀ p ps, solve st.maze st.start st.goal (solveFuel st.maze) = some (p :: ps) →
      enhancedStep st draw = Except.ok (StepOut.pos st.state,
        { st with q := decayQ st.q, backtrack_count := 0, step_count := 0 })) := by
  constructor
  · intro hsol
    unfold enhancedStep
    rw [h, hsol]
    rfl
  · intro p ps hsol
    unfold enhancedStep
    rw [h, hsol]
    rfl

/-- Witness for the amended C3 at `c3bot` (START is connected to GOAL, so
the nonempty-path branch fires). -/
theorem C3_stuck_check_amended_witness :
    enhancedStuck c3bot = true ∧
    enhancedStep c3bot (1 / 2) = Except.ok (StepOut.pos c3bot.state,
      { c3bot with q := decayQ c3bot.q, backtrack_count := 0, step_count := 0 }) :=
  ⟨rfl, (C3_stuck_check_amended c3bot (1 / 2) rfl).2 (1, 1) [(2, 1), (3, 1)] rfl⟩

/-! ## C7: smart exploration -/

/-- The running minimum is a lower bound on the whole candidate list. -/
theorem minPairAux_le : ∀ (l : List (ℕ × ℕ)) (b : ℕ × ℕ),
    ∀ p ∈ b :: l, (minPairAux b l).2 ≤ p.2 := by
  intro l
  induction l with
  | nil =>
    intro b p hp
    simp only [List.mem_singleton] at hp
    subst hp
    exact le_refl _
  | cons x xs ih =>
    intro b p hp
    have hc : (minPairAux b (x :: xs)) = minPairAux (if x.2 < b.2 then x else b) xs := rfl
    have hcb : (if x.2 < b.2 then x else b).2 ≤ b.2 := by
      by_cases hx : x.2 < b.2
      · rw [if_pos hx]; exact le_of_lt hx
      · rw [if_neg hx]
    have hcx : (if x.2 < b.2 then x else b).2 ≤ x.2 := by
      by_cases hx : x.2 < b.2
      · rw [if_pos hx]
      · rw [if_neg hx]; exact le_of_not_lt hx
    have hhead := ih (if x.2 < b.2 then x else b) _ (List.mem_cons_self _ _)
    rcases List.mem_cons.mp hp with h | h
    · subst h; rw [hc]; exact le_trans hhead hcb
    · rcases List.mem_cons.mp h with h' | h'
      · subst h'; rw [hc]; exact le_trans hhead hcx
      · rw [hc]; exact ih _ p (List.mem_cons_of_mem _ h')

/-- The running minimum is the *first* element attaining the minimum:
every element listed before it is strictly larger. -/
theorem minPairAux_first : ∀ (l : List (ℕ × ℕ)) (b : ℕ × ℕ),
    ∃ pre post, b :: l = pre ++ minPairAux b l :: post ∧
      ∀ p ∈ pre, (minPairAux b l).2 < p.2 := by
  intro l
  induction l with
  | nil =>
    intro b
    exact ⟨[], [], rfl, fun p hp => absurd hp (List.not_mem_nil p)⟩
  | cons x xs ih =>
    intro b
    have hc : (minPairAux b (x :: xs)) = minPairAux (if x.2 < b.2 then x else b) xs := rfl
    by_cases hx : x.2 < b.2
    · obtain ⟨pre, post, heq, hlt⟩ := ih x
      rw [if_pos hx] at hc
      refine ⟨b :: pre, post, ?_, ?_⟩
      · rw [hc, List.cons_append, ← heq]
      · intro p hp
        rcases List.mem_cons.mp hp with h | h
        · subst h
          rw [hc]
          exact lt_of_le_of_lt (minPairAux_le xs x _ (List.mem_cons_self _ _)) hx
        · rw [hc]; exact hlt p h
    · obtain ⟨pre, post, heq, hlt⟩ := ih b
      rw [if_neg hx] at hc
      match pre, heq with
      | [], heq =>
        simp only [List.nil_append, List.cons.injEq] at heq
        refine ⟨[], x :: post, ?_, fun p hp => absurd hp (List.not_mem_nil p)⟩
        rw [hc, List.nil_append, ← heq.1, heq.2]
      | hd :: tl, heq =>
        simp only [List.cons_append, List.cons.injEq] at heq
        refine ⟨b :: x :: tl, post, ?_, ?_⟩
        · rw [hc, List.cons_append, List.cons_append, ← heq.2]
        · intro p hp
          have hmb : (minPairAux b xs).2 < b.2 := by
            have := hlt hd (List.mem_cons_self _ _)
            rw [← heq.1] at this
            exact this
          rcases List.mem_cons.mp hp with h | h
          · subst h; rw [hc]; exact hmb
          · rcases List.mem_cons.mp h with h' | h'
            · subst h'; rw [hc]; exact lt_of_lt_of_le hmb (le_of_not_lt hx)
            · rw [hc]; exact hlt p (List.mem_cons_of_mem _ h')

/-- The running minimum is one of the candidates. -/
theorem minPairAux_mem (l : List (ℕ × ℕ)) (b : ℕ × ℕ) :
    minPairAux b l ∈ b :: l := by
  obtain ⟨pre, post, heq, _⟩ := minPairAux_first l b
  rw [heq]
  exact List.mem_append_right _ (List.mem_cons_self _ _)

/-- Every entry of the `valid_actions` list of `explore_action` is an
action whose landing cell is in bounds, paired with that cell's recorded
visit count. -/
theorem mem_exploreValidActions {h w : ℕ} {vc : List (Pos × ℕ)}
    {state : Pos} {p : ℕ × ℕ}
    (hp : p ∈ exploreValidActions h w vc state) :
    inShape h w (moveBy state p.1) = true ∧
      p.2 = agetD vc (moveBy state p.1) := by
  unfold exploreValidActions at hp
  simp only [List.mem_filterMap, List.mem_range] at hp
  obtain ⟨idx, _, hif⟩ := hp
  by_cases hc : inShape h w (moveBy state idx) = true
  · rw [if_pos hc] at hif
    obtain rfl := Option.some.inj hif
    exact ⟨hc, rfl⟩
  · rw [if_neg hc] at hif
    exact absurd hif (Option.noConfusion)

/-- The `valid_actions` list enumerates action indices in strictly
increasing order. -/
theorem exploreValidActions_sorted (h w : ℕ) (vc : List (Pos × ℕ))
    (state : Pos) :
    (exploreValidActions h w vc state).Pairwise (fun a b => a.1 < b.1) := by
  unfold exploreValidActions
  rw [List.pairwise_filterMap]
  apply List.Pairwise.imp ?_ (List.pairwise_lt_range 4)
  intro a b hab x hx y hy
  by_cases ha : inShape h w (moveBy state a) = true
  · rw [if_pos ha] at hx
    obtain rfl := Option.some.inj hx
    by_cases hb : inShape h w (moveBy state b) = true
    · rw [if_pos hb] at hy
      obtain rfl := Option.some.inj hy
      exact hab
    · rw [if_neg hb] at hy
      exact absurd hy (Option.noConfusion)
  · rw [if_neg ha] at hx
    exact absurd hx (Option.noConfusion)

/-- C7 (counterexample): from `(1,1)` on `c7maze` with empty visit
counts, `explore_action` returns action 0 (up), whose landing cell
`(0,1)` is in bounds but a WALL — and a valid neighbour exists, so the
claimed wall-freeness fails. -/
theorem C7_explore_wall_counterexample :
    explore_action 3 3 [] (1, 1) 0 = 0 ∧
    moveBy (1, 1) 0 = (0, 1) ∧
    inShape 3 3 ((0 : ℤ), (1 : ℤ)) = true ∧
    cellZ c7maze (0, 1) = 1 ∧
    is_valid c7maze (moveBy (1, 1) 0) = false ∧
    is_valid c7maze (moveBy (1, 1) 1) = true := by
  refine ⟨?_, ?_, ?_, ?_, ?_, ?_⟩ <;> rfl

/-- C7 (amended): when at least one neighbouring cell is within the
Q-table bounds, `explore_action` returns the action landing on the
in-bounds neighbour (wall or not — walls are *not* excluded) with the
least recorded visit count, ties broken towards the smallest action
index. -/
theorem C7_explore_amended (h w : ℕ) (vc : List (Pos × ℕ)) (state : Pos)
    (natDraw : ℕ) (v : ℕ × ℕ) (vs : List (ℕ × ℕ))
    (hva : exploreValidActions h w vc state = v :: vs) :
    explore_action h w vc state natDraw = (minPairAux v vs).1 ∧
    inShape h w (moveBy state (minPairAux v vs).1) = true ∧
    (minPairAux v vs).2 = agetD vc (moveBy state (minPairAux v vs).1) ∧
    (∀ p ∈ v :: vs, (minPairAux v vs).2 ≤ p.2) ∧
    (∀ p ∈ v :: vs, p.2 = (minPairAux v vs).2 → (minPairAux v vs).1 ≤ p.1) := by
  have hmem : minPairAux v vs ∈ exploreValidActions h w vc state := by
    rw [hva]; exact minPairAux_mem vs v
  obtain ⟨hin, hcnt⟩ := mem_exploreValidActions hmem
  refine ⟨?_, hin, hcnt, minPairAux_le vs v, ?_⟩
  · unfold explore_action
    rw [hva]
  · intro p hp hpe
    obtain ⟨pre, post, heq, hlt⟩ := minPairAux_first vs v
    have hsorted := exploreValidActions_sorted h w vc state
    rw [hva, heq] at hsorted
    have hpost : ∀ q ∈ post, (minPairAux v vs).1 < q.1 := by
      have := (List.pairwise_append.mp hsorted).2.1
      exact (List.pairwise_cons.mp this).1
    rw [heq] at hp
    rcases List.mem_append.mp hp with h' | h'
    · exact absurd hpe (ne_of_gt (hlt p h'))
    · rcases List.mem_cons.mp h' with h'' | h''
      · subst h''; exact le_refl _
      · exact le_of_lt (hpost p h'')

/-- Witness for the amended C7 on a 3×3 shape from the centre with empty
visit counts. -/
theorem C7_explore_amended_witness :
    exploreValidActions 3 3 [] (1, 1) = [(0, 0), (1, 0), (2, 0), (3, 0)] ∧
    explore_action 3 3 [] (1, 1) 0 = (minPairAux (0, 0) [(1, 0), (2, 0), (3, 0)]).1 :=
  ⟨rfl, (C7_explore_amended 3 3 [] (1, 1) 0 (0, 0) [(1, 0), (2, 0), (3, 0)] rfl).1⟩

/-! ## C8: Q-value iteration -/

/-- The self-transition iteration only ever writes the entry `(1,1,0)`. -/
theorem qIterGood_off (r : ℚ) : ∀ (n : ℕ) (y x a : ℕ),
    ¬(y = 1 ∧ x = 1 ∧ a = 0) → qIterGood r n y x a = 0 := by
  intro n
  induction n with
  | zero => intro y x a _; rfl
  | succ m ih =>
    intro y x a hne
    show updateCore (qIterGood r m) 1 1 0 r 1 1 y x a = 0
    unfold updateCore
    simp only [if_neg hne]
    exact ih y x a hne

/-- The neighbour-transition iteration only ever writes `(1,1,0)`. -/
theorem qIterBad_off (r : ℚ) : ∀ (n : ℕ) (y x a : ℕ),
    ¬(y = 1 ∧ x = 1 ∧ a = 0) → qIterBad r n y x a = 0 := by
  intro n
  induction n with
  | zero => intro y x a _; rfl
  | succ m ih =>
    intro y x a hne
    show updateCore (qIterBad r m) 1 1 0 r 1 2 y x a = 0
    unfold updateCore
    simp only [if_neg hne]
    exact ih y x a hne

/-- One step of the self-transition iteration in closed recurrence form:
the bootstrap maximum is taken at the written entry itself. -/
theorem qIterGood_step (r : ℚ) (n : ℕ) (h0 : 0 ≤ qIterGood r n 1 1 0) :
    qIterGood r (n + 1) 1 1 0 =
      qIterGood r n 1 1 0 +
        ALPHA * (r + GAMMA * qIterGood r n 1 1 0 - qIterGood r n 1 1 0) := by
  show updateCore (qIterGood r n) 1 1 0 r 1 1 1 1 0 = _
  unfold updateCore
  simp only [if_pos (⟨rfl, rfl, rfl⟩ : (1 : ℕ) = 1 ∧ (1 : ℕ) = 1 ∧ (0 : ℕ) = 0)]
  have h1 : qIterGood r n 1 1 1 = 0 := qIterGood_off r n 1 1 1 (by simp)
  have h2 : qIterGood r n 1 1 2 = 0 := qIterGood_off r n 1 1 2 (by simp)
  have h3 : qIterGood r n 1 1 3 = 0 := qIterGood_off r n 1 1 3 (by simp)
  have hm : qMaxAt (qIterGood r n) 1 1 = qIterGood r n 1 1 0 := by
    unfold qMaxAt
    rw [h1, h2, h3, max_eq_left h0, max_eq_left h0, max_eq_left h0]
  rw [hm]
  simp

/-- Closed form of the self-transition iteration:
`q_n = 10·r·(1 − (99/100)^n)`. -/
theorem qIterGood_closed (r : ℚ) (hr : 0 ≤ r) :
    ∀ n, qIterGood r n 1 1 0 = 10 * r * (1 - (99 / 100) ^ n) := by
  intro n
  induction n with
  | zero => norm_num; rfl
  | succ m ih =>
    have hpow : ((99 : ℚ) / 100) ^ m ≤ 1 :=
      pow_le_one₀ (by norm_num) (by norm_num)
    have h0 : 0 ≤ qIterGood r m 1 1 0 := by
      rw [ih]
      have : (0 : ℚ) ≤ 1 - (99 / 100) ^ m := by linarith
      positivity
    rw [qIterGood_step r m h0, ih]
    unfold ALPHA GAMMA
    rw [pow_succ]
    ring

/-- The tail of the geometric factor shrinks linearly:
`(99/100)^n · (99 + n) ≤ 99`. -/
theorem c8_pow_bound : ∀ n : ℕ, (99 / 100 : ℚ) ^ n * (99 + n) ≤ 99 := by
  intro n
  induction n with
  | zero => norm_num
  | succ m ih =>
    have hnn : (0 : ℚ) ≤ (99 / 100) ^ m := by positivity
    rw [pow_succ]
    push_cast
    push_cast at ih
    nlinarith [hnn, ih]

/-- C8 (counterexample): with `next_state ≠ state` (the actual situation
on a trivial grid, where the single optimal action moves the agent), the
iterated values never come within `α` of `r/(1−γ)`: for `r = 1` they stay
at most `1` while the claimed fixed point is `10`. -/
theorem C8_fixed_point_counterexample :
    ¬ ∃ N : ℕ, ∀ n, N ≤ n → |qIterBad 1 n 1 1 0 - 1 / (1 - GAMMA)| ≤ ALPHA := by
  have hb : ∀ n, qIterBad 1 n 1 1 0 ≤ 1 := by
    intro n
    induction n with
    | zero => norm_num [qIterBad, qZero]
    | succ m ih =>
      have hmax : qMaxAt (qIterBad 1 m) 1 2 = 0 := by
        unfold qMaxAt
        rw [qIterBad_off 1 m 1 2 0 (by simp), qIterBad_off 1 m 1 2 1 (by simp),
          qIterBad_off 1 m 1 2 2 (by simp), qIterBad_off 1 m 1 2 3 (by simp)]
        norm_num
      have hstep : qIterBad 1 (m + 1) 1 1 0 =
          qIterBad 1 m 1 1 0 + ALPHA * (1 + GAMMA * 0 - qIterBad 1 m 1 1 0) := by
        show updateCore (qIterBad 1 m) 1 1 0 1 1 2 1 1 0 = _
        unfold updateCore
        simp only [if_pos (⟨rfl, rfl, rfl⟩ : (1 : ℕ) = 1 ∧ (1 : ℕ) = 1 ∧ (0 : ℕ) = 0)]
        rw [hmax]
        simp
      rw [hstep]
      unfold ALPHA GAMMA
      linarith
  rintro ⟨N, hN⟩
  have h1 := hN N (le_refl N)
  have h2 := hb N
  rw [abs_le] at h1
  unfold ALPHA GAMMA at h1
  have h3 : (1 : ℚ) / (1 - 9 / 10) = 10 := by norm_num
  rw [h3] at h1
  linarith [h1.1]

/-- C8 (amended): in the self-transition setting `next_state = state` —
the only one in which the bootstrap term feeds back and the fixed point
is `r/(1−γ)` — the iterated value is strictly increasing and eventually
stays within `α` of `r/(1−γ) = 10·r`. -/
theorem C8_qlearning_amended (r : ℚ) (hr : 0 < r) :
    (∀ n, qIterGood r n 1 1 0 < qIterGood r (n + 1) 1 1 0) ∧
    ∃ N : ℕ, ∀ n, N ≤ n →
      |qIterGood r n 1 1 0 - r / (1 - GAMMA)| ≤ ALPHA := by
  have hr' : (0 : ℚ) ≤ r := le_of_lt hr
  constructor
  · intro n
    rw [qIterGood_closed r hr' n, qIterGood_closed r hr' (n + 1)]
    have hpos : (0 : ℚ) < (99 / 100) ^ n := by positivity
    rw [pow_succ]
    nlinarith [hpos, hr]
  · refine ⟨⌈9900 * r⌉₊, fun n hn => ?_⟩
    rw [qIterGood_closed r hr' n]
    have hfix : r / (1 - GAMMA) = 10 * r := by
      unfold GAMMA
      field_simp
      ring
    rw [hfix]
    have habs : 10 * r * (1 - (99 / 100) ^ n) - 10 * r = -(10 * r * (99 / 100) ^ n) := by
      ring
    rw [habs, abs_neg, abs_of_nonneg (by positivity)]
    unfold ALPHA
    have hbound := c8_pow_bound n
    have hpow : (0 : ℚ) ≤ (99 / 100) ^ n := by positivity
    have hcast : (9900 : ℚ) * r ≤ n := by
      calc (9900 : ℚ) * r ≤ (⌈9900 * r⌉₊ : ℚ) := Nat.le_ceil _
        _ ≤ (n : ℚ) := by exact_mod_cast Nat.cast_le.mpr hn
    nlinarith [hbound, hpow, hcast, hr,
      mul_le_mul_of_nonneg_right hcast hpow]

/-- Witness for the amended C8 at reward `r = 1`. -/
theorem C8_qlearning_amended_witness :
    (0 : ℚ) < 1 ∧
    ((∀ n, qIterGood 1 n 1 1 0 < qIterGood 1 (n + 1) 1 1 0) ∧
      ∃ N : ℕ, ∀ n, N ≤ n →
        |qIterGood 1 n 1 1 0 - 1 / (1 - GAMMA)| ≤ ALPHA) :=
  ⟨zero_lt_one, C8_qlearning_amended 1 zero_lt_one⟩

/-! ## C6: following the A* hint -/

/-- An in-bounds position resolves to its own coordinates under numpy
index semantics. -/
theorem npIdx_of_inB {g : Grid} {p : Pos} (h : inB g p = true) :
    npIdx p.1 (gridH g) = some p.1.toNat ∧
      npIdx p.2 (gridW g) = some p.2.toNat := by
  unfold inB at h
  rw [decide_eq_true_eq] at h
  constructor
  · unfold npIdx
    rw [if_pos ⟨h.1, h.2.1⟩]
  · unfold npIdx
    rw [if_pos ⟨h.2.2.1, h.2.2.2⟩]

/-- A valid cell is in bounds. -/
theorem inB_of_is_valid {g : Grid} {p : Pos} (h : is_valid g p = true) :
    inB g p = true := by
  simp only [is_valid, Bool.and_eq_true] at h
  exact h.1

/-- When both the state and the next state are in bounds, the Q-update
succeeds (no `IndexError`). -/
theorem update_q_table_ok {g : Grid} {state next : Pos}
    (hs : inB g state = true) (hn : inB g next = true)
    (q : QTable) (action : ℕ) (reward : ℚ) :
    update_q_table (gridH g) (gridW g) q state action reward next =
      Except.ok (updateCore q state.1.toNat state.2.toNat action reward
        next.1.toNat next.2.toNat) := by
  obtain ⟨hs1, hs2⟩ := npIdx_of_inB hs
  obtain ⟨hn1, hn2⟩ := npIdx_of_inB hn
  unfold update_q_table
  rw [hn1, hn2, hs1, hs2]

/-- The cache lookup of `get_optimal_path` only ever touches the A*
cache: every other field of the bot is returned unchanged. -/
theorem get_optimal_path_fields (st : Bot) (p : Pos) (acts : List ℕ)
    (st1 : Bot) (h : get_optimal_path st p = Except.ok (acts, st1)) :
    st1.maze = st.maze ∧ st1.state = st.state ∧
      st1.dead_ends = st.dead_ends ∧ st1.goal = st.goal := by
  unfold get_optimal_path at h
  split at h
  · simp only [Except.ok.injEq, Prod.mk.injEq] at h
    obtain ⟨_, h2⟩ := h
    subst h2
    exact ⟨rfl, rfl, rfl, rfl⟩
  · split at h
    · simp at h
    · simp only [Except.ok.injEq, Prod.mk.injEq] at h
      obtain ⟨_, h2⟩ := h
      subst h2
      exact ⟨rfl, rfl, rfl, rfl⟩

/-- The look-ahead loop of `EnhancedMazeBot.step` commits exactly at the
first index whose landing cell is not a recorded dead end and is a valid
move; the committed bot stands on that cell and the maze is unchanged. -/
theorem tryFollowFrom_commits (st : Bot) (acts : List ℕ)
    (hin : inB st.maze st.state = true) :
    ∀ (rem i i0 : ℕ), i ≤ i0 → i0 < i + rem →
    (∀ j, i ≤ j → j < i0 → followOk st acts j = false) →
    followOk st acts i0 = true →
    ∃ st', tryFollowFrom st acts i rem =
        Except.ok (some (StepOut.pos (followCell st acts i0), st')) ∧
      st'.state = followCell st acts i0 ∧ st'.maze = st.maze := by
  intro rem
  induction rem with
  | zero => intro i i0 hle hlt _ _; omega
  | succ m ih =>
    intro i i0 hle hlt hmin hok
    by_cases heq : i = i0
    · subst heq
      unfold followOk at hok
      simp only [Bool.and_eq_true, Bool.not_eq_true'] at hok
      obtain ⟨hnd, hv⟩ := hok
      unfold followCell at hnd hv
      have hnext : inB st.maze (moveBy st.state (acts.getD i 0)) = true :=
        inB_of_is_valid hv
      simp only [tryFollowFrom, hnd, Bool.false_eq_true, if_false, hv, if_true,
        update_q_table_ok hin hnext]
      refine ⟨_, rfl, ?_, ?_⟩
      · split <;> rfl
      · split <;> rfl
    · have hlt' : i < i0 := lt_of_le_of_ne hle heq
      have hcur := hmin i (le_refl i) hlt'
      have step : tryFollowFrom st acts i (m + 1) = tryFollowFrom st acts (i + 1) m := by
        by_cases hdead : st.dead_ends.contains (moveBy st.state (acts.getD i 0)) = true
        · simp only [tryFollowFrom, hdead, if_true]
        · rw [Bool.not_eq_true] at hdead
          have hinv : is_valid st.maze (moveBy st.state (acts.getD i 0)) = false := by
            unfold followOk followCell at hcur
            rw [hdead] at hcur
            simpa using hcur
          simp only [tryFollowFrom, hdead, Bool.false_eq_true, if_false, hinv]
      rw [step]
      exact ih (i + 1) i0 hlt' (by omega)
        (fun j hj1 hj2 => hmin j (by omega) hj2) hok


/-- C6 (counterexample): on `c6maze` the hinted shortest path is
`(1,1) → (1,2) → (1,3) → (2,3) → (3,3)`; with the first landing cell
`(1,2)` a recorded dead end, the look-ahead commits to `(2,1)` — a cell
that lies on no prefix of the hinted path at all, because each look-ahead
action is applied to the *current* position instead of walking the path. -/
theorem C6_hint_following_counterexample :
    solve c6maze (1, 1) (3, 3) (solveFuel c6maze) =
      some [(1, 1), (1, 2), (1, 3), (2, 3), (3, 3)] ∧
    getActionSequence [(1, 1), (1, 2), (1, 3), (2, 3), (3, 3)] = [3, 3, 1, 1] ∧
    (0 : ℚ) < followProb c6bot ∧
    enhancedStep c6bot 0 = Except.ok (StepOut.pos (2, 1), c6bot1) ∧
    ((2, 1) : Pos) ∉ [((1, 1) : Pos), (1, 2), (1, 3), (2, 3), (3, 3)] := by
  refine ⟨rfl, rfl, ?_, ?_, by decide⟩
  · exact of_decide_eq_true (by with_unfolding_all rfl)
  · with_unfolding_all rfl

/-- C6 (amended): when the A* hint is followed, the committed position is
`state + ACTIONS[acts[i]]` for the earliest index `i < min(3, len(acts))`
whose landing cell (computed from the *current* position, not along the
path) is no recorded dead end and a valid move. -/
theorem C6_hint_follow_amended (st st1 : Bot) (acts : List ℕ) (draw : ℚ)
    (i0 : ℕ)
    (hstuck : enhancedStuck st = false)
    (hopt : get_optimal_path st st.state = Except.ok (acts, st1))
    (hne : acts.isEmpty = false)
    (hdraw : draw < followProb st)
    (hin : inB st.maze st.state = true)
    (hi0 : i0 < min 3 acts.length)
    (hmin : ∀ j, j < i0 → followOk st acts j = false)
    (hok : followOk st acts i0 = true) :
    ∃ st', enhancedStep st draw =
        Except.ok (StepOut.pos (followCell st acts i0), st') ∧
      st'.state = followCell st acts i0 := by
  obtain ⟨hmaze, hstate, hdead, _⟩ := get_optimal_path_fields st st.state acts st1 hopt
  have hfc : ∀ j, followCell st1 acts j = followCell st acts j := by
    intro j
    unfold followCell
    rw [hstate]
  have hfo : ∀ j, followOk st1 acts j = followOk st acts j := by
    intro j
    unfold followOk
    rw [hfc, hmaze, hdead]
  have hin1 : inB st1.maze st1.state = true := by rw [hmaze, hstate]; exact hin
  obtain ⟨st', hrun, hst, hmz⟩ := tryFollowFrom_commits st1 acts hin1
    (min 3 acts.length) 0 i0 (Nat.zero_le _) (by omega)
    (fun j _ hj => by rw [hfo]; exact hmin j hj)
    (by rw [hfo]; exact hok)
  refine ⟨st', ?_, by rw [hst, hfc]⟩
  unfold enhancedStep
  rw [hstuck]
  simp only [Bool.false_eq_true, if_false, hopt]
  have hcond : (!acts.isEmpty && decide (draw <
      95 / 100 ⊓ (7 / 10 + (st.backtrack_count : ℚ) /
        ((max 1 st.step_count : ℕ) : ℚ) * (25 / 100)))) = true := by
    rw [hne]
    unfold followProb at hdraw
    simp only [Bool.not_false, Bool.true_and, decide_eq_true_eq]
    exact hdraw
  rw [hcond]
  simp only [if_true, hrun, hfc]

/-- Witness for the amended C6 at `c6bot`: indices 0 and 1 land on the
dead end `(1,2)`, index 2 commits to `(2,1)`. -/
theorem C6_hint_follow_amended_witness :
    ∃ st', enhancedStep c6bot 0 =
        Except.ok (StepOut.pos (followCell c6bot [3, 3, 1, 1] 2), st') ∧
      st'.state = followCell c6bot [3, 3, 1, 1] 2 :=
  C6_hint_follow_amended c6bot c6bot0 [3, 3, 1, 1] 0 2 rfl rfl rfl
    (of_decide_eq_true (by with_unfolding_all rfl)) rfl (by decide)
    (by decide) (by decide)

/-! ## C4: START/GOAL placement -/

/-- If every neighbour of `s` is a wall, nothing except `s` itself is
wall-free-reachable from `s`. -/
theorem reachFree_isolated {g : Grid} {s t : Pos}
    (hblock : ∀ q, adj s q → ¬(inB g q = true ∧ cellZ g q ≠ 1))
    (h : ReachFree g s t) : t = s := by
  induction h with
  | refl => rfl
  | step hr hadj hb hc ih =>
    subst ih
    exact absurd ⟨hb, hc⟩ (hblock _ hadj)

/-- Writing one list entry trades the old entry's count contribution for
the new value's. -/
theorem countP_set_trade (p : ℕ → Bool) :
    ∀ (row : List ℕ) (x v : ℕ), x < row.length →
    (row.set x v).countP p + (if p (row.getD x 0) then 1 else 0)
      = row.countP p + (if p v then 1 else 0) := by
  intro row
  induction row with
  | nil => intro x v hx; simp at hx
  | cons a rest ih =>
    intro x v hx
    match x with
    | 0 =>
      simp only [List.set_cons_zero, List.countP_cons, List.getD_cons_zero]
      omega
    | x' + 1 =>
      simp only [List.set_cons_succ, List.countP_cons, List.getD_cons_succ]
      have := ih x' v (by simpa using hx)
      omega

/-- Writing one grid cell trades the old cell's count contribution for
the new value's. -/
theorem countCode_gridSet (c v : ℕ) :
    ∀ (g : Grid) (y x : ℕ), y < g.length → x < (g.getD y []).length →
    countCode (gridSet g y x v) c + (if (g.getD y []).getD x 0 == c then 1 else 0)
      = countCode g c + (if v == c then 1 else 0) := by
  intro g
  induction g with
  | nil => intro y x hy _; simp at hy
  | cons row rest ih =>
    intro y x hy hx
    match y with
    | 0 =>
      show countCode ((row.set x v) :: rest) c + _ = _
      unfold countCode
      simp only [List.map_cons, List.sum_cons, List.getD_cons_zero] at *
      have := countP_set_trade (fun u => u == c) row x v (by simpa using hx)
      simp only at this
      omega
    | y' + 1 =>
      show countCode (row :: gridSet rest y' x v) c + _ = _
      unfold countCode
      simp only [List.map_cons, List.sum_cons, List.getD_cons_succ] at *
      have := ih y' x (by simpa using hy) hx
      unfold countCode at this
      omega

/-- A grid whose cells all avoid code `c` counts zero cells of code `c`. -/
theorem countCode_eq_zero {g : Grid} {c : ℕ}
    (h : ∀ row ∈ g, ∀ u ∈ row, (u == c) = false) : countCode g c = 0 := by
  induction g with
  | nil => rfl
  | cons row rest ih =>
    unfold countCode
    simp only [List.map_cons, List.sum_cons]
    have h1 : row.countP (fun u => u == c) = 0 :=
      List.countP_eq_zero.mpr (fun u hu => by simp [h row (List.mem_cons_self _ _) u hu])
    have h2 := ih (fun r hr => h r (List.mem_cons_of_mem _ hr))
    unfold countCode at h2
    omega

/-- Every candidate produced by the `possible_exits` scan lies strictly
inside the parameter rectangle and is an EMPTY cell. -/
theorem mem_possibleExits {width height : ℕ} {mz : Grid} {p : Pos}
    (hw : 3 ≤ width) (hh : 3 ≤ height)
    (hp : p ∈ possibleExits width height mz) :
    0 ≤ p.1 ∧ p.1 < (height : ℤ) ∧ 0 ≤ p.2 ∧ p.2 < (width : ℤ) ∧
      cellZ mz p = 0 := by
  unfold possibleExits at hp
  rcases List.mem_append.mp hp with h | h <;>
    simp only [List.mem_flatMap, List.mem_range] at h
  · obtain ⟨c0, hc0, hmem⟩ := h
    rcases List.mem_append.mp hmem with h' | h'
    · by_cases hcell : (cellZ mz (1, (c0 : ℤ) + 1) == 0) = true
      · rw [if_pos hcell] at h'
        simp only [List.mem_singleton] at h'
        subst h'
        refine ⟨?_, ?_, ?_, ?_, by simpa using hcell⟩
        · show (0 : ℤ) ≤ 1; norm_num
        · show (1 : ℤ) < (height : ℤ); omega
        · show (0 : ℤ) ≤ (c0 : ℤ) + 1; positivity
        · show (c0 : ℤ) + 1 < (width : ℤ); omega
      · rw [if_neg hcell] at h'
        simp at h'
    · by_cases hcell : (cellZ mz ((height : ℤ) - 2, (c0 : ℤ) + 1) == 0) = true
      · rw [if_pos hcell] at h'
        simp only [List.mem_singleton] at h'
        subst h'
        refine ⟨?_, ?_, ?_, ?_, by simpa using hcell⟩
        · show (0 : ℤ) ≤ (height : ℤ) - 2; omega
        · show (height : ℤ) - 2 < (height : ℤ); omega
        · show (0 : ℤ) ≤ (c0 : ℤ) + 1; positivity
        · show (c0 : ℤ) + 1 < (width : ℤ); omega
      · rw [if_neg hcell] at h'
        simp at h'
  · obtain ⟨r0, hr0, hmem⟩ := h
    rcases List.mem_append.mp hmem with h' | h'
    · by_cases hcell : (cellZ mz ((r0 : ℤ) + 1, 1) == 0) = true
      · rw [if_pos hcell] at h'
        simp only [List.mem_singleton] at h'
        subst h'
        refine ⟨?_, ?_, ?_, ?_, by simpa using hcell⟩
        · show (0 : ℤ) ≤ (r0 : ℤ) + 1; positivity
        · show (r0 : ℤ) + 1 < (height : ℤ); omega
        · show (0 : ℤ) ≤ 1; norm_num
        · show (1 : ℤ) < (width : ℤ); omega
      · rw [if_neg hcell] at h'
        simp at h'
    · by_cases hcell : (cellZ mz ((r0 : ℤ) + 1, (width : ℤ) - 2) == 0) = true
      · rw [if_pos hcell] at h'
        simp only [List.mem_singleton] at h'
        subst h'
        refine ⟨?_, ?_, ?_, ?_, by simpa using hcell⟩
        · show (0 : ℤ) ≤ (r0 : ℤ) + 1; positivity
        · show (r0 : ℤ) + 1 < (height : ℤ); omega
        · show (0 : ℤ) ≤ (width : ℤ) - 2; omega
        · show (width : ℤ) - 2 < (width : ℤ); omega
      · rw [if_neg hcell] at h'
        simp at h'


/-- The centre written by `adaptivePlace`, in ℕ coordinates. -/
theorem center_toNat (width height : ℕ) :
    (((height : ℤ) / 2).toNat = height / 2) ∧
      (((width : ℤ) / 2).toNat = width / 2) := by
  constructor
  · rw [show ((2 : ℤ)) = ((2 : ℕ) : ℤ) from rfl, ← Int.ofNat_ediv, Int.toNat_natCast]
  · rw [show ((2 : ℤ)) = ((2 : ℕ) : ℤ) from rfl, ← Int.ofNat_ediv, Int.toNat_natCast]

/-- Row lengths are invariant under `gridSet`. -/
theorem gridSet_row_length (g : Grid) (y0 x0 v : ℕ) (y : ℕ)
    (hy : y < g.length) :
    ((gridSet g y0 x0 v).getD y []).length = (g.getD y []).length := by
  unfold gridSet
  have hy' : y < (g.set y0 ((g.getD y0 []).set x0 v)).length := by
    rw [List.length_set]; exact hy
  rw [List.getD_eq_getElem _ [] hy', List.getD_eq_getElem _ [] hy]
  rw [List.getElem_set]
  by_cases h : y0 = y
  · rw [if_pos h, List.length_set, h, List.getD_eq_getElem _ [] hy]
  · rw [if_neg h]

/-- C4 (amended): the placement step of `AdaptiveMazeGame.generate_maze`
puts exactly one START cell into any 0/1 grid of the constructor's
dimensions; when it reports a goal it has put exactly one GOAL cell, and
it does report one whenever a qualifying inner-border cell exists.
(Connectivity between START and GOAL is *not* part of this theorem: the
START cell is written at the grid centre unconditionally, and on grids
whose centre is a wall it can be sealed off, as the counterexample
shows.) -/
theorem C4_placement_amended (width height : ℕ) (mz : Grid) (r : List ℕ)
    (g : Grid) (s : Pos) (e : Option Pos) (r' : List ℕ)
    (hlen : mz.length = height) (hrow : ∀ row ∈ mz, row.length = width)
    (hcells : ∀ row ∈ mz, ∀ c ∈ row, c ≤ 1)
    (hw : 3 ≤ width) (hh : 3 ≤ height)
    (hres : adaptivePlace width height mz r = (g, s, e, r')) :
    countCode g 2 = 1 ∧ (∀ x, e = some x → countCode g 3 = 1) ∧
    (validExits width height
        (setZ mz ((height : ℤ) / 2, (width : ℤ) / 2) 2) ≠ [] →
      e.isSome = true) := by
  obtain ⟨hcy, hcx⟩ := center_toNat width height
  have hset : setZ mz ((height : ℤ) / 2, (width : ℤ) / 2) 2 =
      gridSet mz (height / 2) (width / 2) 2 := by
    unfold setZ
    rw [show (((height : ℤ) / 2, (width : ℤ) / 2) : Pos).1 = (height : ℤ) / 2 from rfl,
      show (((height : ℤ) / 2, (width : ℤ) / 2) : Pos).2 = (width : ℤ) / 2 from rfl,
      hcy, hcx]
  have hy0 : height / 2 < mz.length := by
    rw [hlen]; exact Nat.div_lt_self (by omega) (by omega)
  have hrow0mem : mz.getD (height / 2) [] ∈ mz := by
    rw [List.getD_eq_getElem _ [] hy0]; exact List.getElem_mem hy0
  have hx0 : width / 2 < (mz.getD (height / 2) []).length := by
    rw [hrow _ hrow0mem]; exact Nat.div_lt_self (by omega) (by omega)
  have hold0mem : (mz.getD (height / 2) []).getD (width / 2) 0 ∈
      mz.getD (height / 2) [] := by
    rw [List.getD_eq_getElem _ 0 hx0]; exact List.getElem_mem hx0
  have hold0le : (mz.getD (height / 2) []).getD (width / 2) 0 ≤ 1 :=
    hcells _ hrow0mem _ hold0mem
  have hz2 : countCode mz 2 = 0 := countCode_eq_zero (fun row hr u hu => by
    have := hcells row hr u hu
    simp only [beq_eq_false_iff_ne, ne_eq]
    omega)
  have hz3 : countCode mz 3 = 0 := countCode_eq_zero (fun row hr u hu => by
    have := hcells row hr u hu
    simp only [beq_eq_false_iff_ne, ne_eq]
    omega)
  have hm12 : countCode (gridSet mz (height / 2) (width / 2) 2) 2 = 1 := by
    have := countCode_gridSet 2 2 mz (height / 2) (width / 2) hy0 hx0
    rw [hz2] at this
    have hne : ((mz.getD (height / 2) []).getD (width / 2) 0 == 2) = false := by
      simp only [beq_eq_false_iff_ne, ne_eq]; omega
    rw [hne] at this
    simpa using this
  have hm13 : countCode (gridSet mz (height / 2) (width / 2) 2) 3 = 0 := by
    have := countCode_gridSet 3 2 mz (height / 2) (width / 2) hy0 hx0
    rw [hz3] at this
    have hne : ((mz.getD (height / 2) []).getD (width / 2) 0 == 3) = false := by
      simp only [beq_eq_false_iff_ne, ne_eq]; omega
    rw [hne] at this
    simpa using this
  have hlen1 : (gridSet mz (height / 2) (width / 2) 2).length = height := by
    unfold gridSet; rw [List.length_set, hlen]
  unfold adaptivePlace at hres
  simp only at hres
  rw [hset] at hres
  by_cases hve : (validExits width height
      (gridSet mz (height / 2) (width / 2) 2)).isEmpty = true
  · rw [if_pos hve] at hres
    simp only [Prod.mk.injEq] at hres
    obtain ⟨hg, _, he, _⟩ := hres
    subst hg
    refine ⟨hm12, ?_, ?_⟩
    · intro x hx; rw [← he] at hx; cases hx
    · intro hne
      rw [hset] at hne
      exact absurd (List.isEmpty_iff.mp hve) hne
  · rw [if_neg hve] at hres
    rw [Bool.not_eq_true] at hve
    have hvne : validExits width height
        (gridSet mz (height / 2) (width / 2) 2) ≠ [] :=
      List.isEmpty_eq_false.mp hve
    have hvpos : 0 < (validExits width height
        (gridSet mz (height / 2) (width / 2) 2)).length :=
      List.length_pos.mpr hvne
    rcases hrt : rtake r (validExits width height
        (gridSet mz (height / 2) (width / 2) 2)).length with ⟨i, r1⟩
    rw [hrt] at hres
    simp only [Prod.mk.injEq] at hres
    obtain ⟨hg, _, he, _⟩ := hres
    have hi : i < (validExits width height
        (gridSet mz (height / 2) (width / 2) 2)).length := by
      unfold rtake at hrt
      simp only [Prod.mk.injEq] at hrt
      rw [← hrt.1, Nat.max_eq_right hvpos]
      exact Nat.mod_lt _ hvpos
    set ve := validExits width height (gridSet mz (height / 2) (width / 2) 2) with hvedef
    have hmem : ve.getD i (0, 0) ∈ ve := by
      rw [List.getD_eq_getElem _ _ hi]; exact List.getElem_mem hi
    have hpe : ve.getD i (0, 0) ∈ possibleExits width height
        (gridSet mz (height / 2) (width / 2) 2) := by
      rw [hvedef] at hmem
      exact (List.mem_filter.mp hmem).1
    obtain ⟨hb1, hb2, hb3, hb4, hcell⟩ := mem_possibleExits hw hh hpe
    set e' := ve.getD i (0, 0) with he'def
    have hey : e'.1.toNat < (gridSet mz (height / 2) (width / 2) 2).length := by
      rw [hlen1]; omega
    have hrowlen : ((gridSet mz (height / 2) (width / 2) 2).getD e'.1.toNat []).length
        = width := by
      rw [gridSet_row_length mz _ _ _ _ (by rw [hlen]; omega)]
      have : mz.getD e'.1.toNat [] ∈ mz := by
        rw [List.getD_eq_getElem _ [] (by rw [hlen]; omega)]
        exact List.getElem_mem _
      exact hrow _ this
    have hex : e'.2.toNat < ((gridSet mz (height / 2) (width / 2) 2).getD
        e'.1.toNat []).length := by
      rw [hrowlen]; omega
    have holde : ((gridSet mz (height / 2) (width / 2) 2).getD e'.1.toNat []).getD
        e'.2.toNat 0 = 0 := by
      have h01 : ((gridSet mz (height / 2) (width / 2) 2).getD e'.1.toNat []).getD
          e'.2.toNat 0 = ((gridSet mz (height / 2) (width / 2) 2).getD
          e'.1.toNat []).getD e'.2.toNat 1 := by
        rw [List.getD_eq_getElem _ 0 hex, List.getD_eq_getElem _ 1 hex]
      rw [h01]
      exact hcell
    have hgeq : g = gridSet (gridSet mz (height / 2) (width / 2) 2)
        e'.1.toNat e'.2.toNat 3 := by
      rw [← hg]; rfl
    have hc2 : countCode g 2 = 1 := by
      rw [hgeq]
      have := countCode_gridSet 2 3 (gridSet mz (height / 2) (width / 2) 2)
        e'.1.toNat e'.2.toNat hey hex
      rw [hm12, holde] at this
      simpa using this
    have hc3 : countCode g 3 = 1 := by
      rw [hgeq]
      have := countCode_gridSet 3 3 (gridSet mz (height / 2) (width / 2) 2)
        e'.1.toNat e'.2.toNat hey hex
      rw [hm13, holde] at this
      simpa using this
    exact ⟨hc2, fun x _ => hc3, fun _ => by rw [← he]; rfl⟩

/-! ## C9 and C10: maze frame and position validity of the step functions -/

/-- Every fallback candidate's landing cell is a valid move. -/
theorem fallbackCandidates_valid {st : Bot} {c : ℕ × Pos × ℚ}
    (hc : c ∈ fallbackCandidates st) : is_valid st.maze c.2.1 = true := by
  unfold fallbackCandidates at hc
  simp only [List.mem_filterMap, List.mem_range] at hc
  obtain ⟨idx, _, hif⟩ := hc
  by_cases hv : (is_valid st.maze (moveBy st.state idx) &&
      !(st.dead_ends.contains (moveBy st.state idx))) = true
  · rw [if_pos hv] at hif
    obtain rfl := Option.some.inj hif
    simp only
    exact ((Bool.and_eq_true _ _).mp hv).1
  · rw [if_neg hv] at hif
    cases hif

/-- The stable minimum by score is one of the candidates. -/
theorem minByScoreAux_mem : ∀ (l : List (ℕ × Pos × ℚ)) (b : ℕ × Pos × ℚ),
    minByScoreAux b l ∈ b :: l := by
  intro l
  induction l with
  | nil => intro b; exact List.mem_cons_self _ _
  | cons x xs ih =>
    intro b
    have hc : minByScoreAux b (x :: xs) =
        minByScoreAux (if x.2.2 < b.2.2 then x else b) xs := rfl
    rw [hc]
    rcases List.mem_cons.mp (ih (if x.2.2 < b.2.2 then x else b)) with h | h
    · rw [h]
      by_cases hx : x.2.2 < b.2.2
      · rw [if_pos hx]
        exact List.mem_cons_of_mem _ (List.mem_cons_self _ _)
      · rw [if_neg hx]
        exact List.mem_cons_self _ _
    · exact List.mem_cons_of_mem _ (List.mem_cons_of_mem _ h)

/-- The dead-end escape keeps the maze and lands on the unchanged
position or on a valid cell. -/
theorem escapeMove_ok (st : Bot) :
    (escapeMove st).2.maze = st.maze ∧
    ((escapeMove st).1 = StepOut.pos st.state ∨
      ∃ p, (escapeMove st).1 = StepOut.pos p ∧ is_valid st.maze p = true) := by
  unfold escapeMove
  match hf : (List.range 4).find? (fun i => is_valid st.maze (moveBy st.state i)) with
  | some idx =>
    refine ⟨rfl, Or.inr ⟨moveBy st.state idx, rfl, ?_⟩⟩
    simpa using List.find?_some hf
  | none => exact ⟨rfl, Or.inl rfl⟩

/-- The fallback exploration keeps the maze and lands on the unchanged
position or on a valid cell. -/
theorem fallbackExplore_ok (st : Bot) (o : StepOut × Bot)
    (h : fallbackExplore st = Except.ok o) :
    o.2.maze = st.maze ∧
    (o.1 = StepOut.pos st.state ∨
      ∃ p, o.1 = StepOut.pos p ∧ is_valid st.maze p = true) := by
  unfold fallbackExplore at h
  match hfc : fallbackCandidates st with
  | [] =>
    rw [hfc] at h
    simp only at h
    obtain rfl := Except.ok.inj h
    obtain ⟨h1, h2⟩ := escapeMove_ok { st with dead_ends := st.state :: st.dead_ends }
    exact ⟨h1, h2⟩
  | v :: vs =>
    rw [hfc] at h
    simp only at h
    have hvmem : minByScoreAux v vs ∈ fallbackCandidates st := by
      rw [hfc]; exact minByScoreAux_mem vs v
    have hval := fallbackCandidates_valid hvmem
    split at h
    · cases h
    · obtain rfl := Except.ok.inj h
      refine ⟨?_, Or.inr ⟨(minByScoreAux v vs).2.1, ?_, hval⟩⟩
      · split <;> rfl
      · rfl

/-- The look-ahead loop, when it commits, keeps the maze and lands on a
valid cell. -/
theorem tryFollowFrom_ok_some (st : Bot) (acts : List ℕ) :
    ∀ (rem i : ℕ) (res : StepOut × Bot),
    tryFollowFrom st acts i rem = Except.ok (some res) →
    res.2.maze = st.maze ∧
      ∃ p, res.1 = StepOut.pos p ∧ is_valid st.maze p = true := by
  intro rem
  induction rem with
  | zero => intro i res h; simp [tryFollowFrom] at h
  | succ m ih =>
    intro i res h
    by_cases hdead : st.dead_ends.contains (moveBy st.state (acts.getD i 0)) = true
    · simp only [tryFollowFrom, hdead, if_true] at h
      exact ih (i + 1) res h
    · rw [Bool.not_eq_true] at hdead
      by_cases hv : is_valid st.maze (moveBy st.state (acts.getD i 0)) = true
      · simp only [tryFollowFrom, hdead, Bool.false_eq_true, if_false, hv,
          if_true] at h
        split at h
        · cases h
        · obtain rfl := Option.some.inj (Except.ok.inj h)
          refine ⟨?_, moveBy st.state (acts.getD i 0), ?_, hv⟩
          · split <;> rfl
          · rfl
      · rw [Bool.not_eq_true] at hv
        simp only [tryFollowFrom, hdead, Bool.false_eq_true, if_false, hv] at h
        exact ih (i + 1) res h

/-- `MazeBot.step`: any successful call keeps the maze, and reports
either `"regenerate"`, the unchanged position, or a valid cell. -/
theorem mazeBotStep_ok (st : Bot) (draw : ℚ) (natDraw : ℕ)
    (o : StepOut × Bot) (h : mazeBotStep st draw natDraw = Except.ok o) :
    o.2.maze = st.maze ∧
    (o.1 = StepOut.regenerate ∨ o.1 = StepOut.pos st.state ∨
      ∃ p, o.1 = StepOut.pos p ∧ is_valid st.maze p = true) := by
  unfold mazeBotStep at h
  split at h
  · split at h
    · split at h
      · cases h
      · obtain rfl := Except.ok.inj h
        exact ⟨rfl, Or.inl rfl⟩
      · obtain rfl := Except.ok.inj h
        exact ⟨rfl, Or.inr (Or.inl rfl)⟩
    · cases h
  · simp only at h
    split at h
    · split at h
      · obtain rfl := Except.ok.inj h
        refine ⟨rfl, Or.inr (Or.inr ⟨_, rfl, ?_⟩)⟩
        assumption
      · cases h
    · split at h
      · obtain rfl := Except.ok.inj h
        exact ⟨rfl, Or.inr (Or.inl rfl)⟩
      · cases h

/-- `EnhancedMazeBot.step`: any successful call keeps the maze, and
reports either `"regenerate"`, the unchanged position, or a valid cell. -/
theorem enhancedStep_ok (st : Bot) (draw : ℚ) (o : StepOut × Bot)
    (h : enhancedStep st draw = Except.ok o) :
    o.2.maze = st.maze ∧
    (o.1 = StepOut.regenerate ∨ o.1 = StepOut.pos st.state ∨
      ∃ p, o.1 = StepOut.pos p ∧ is_valid st.maze p = true) := by
  unfold enhancedStep at h
  split at h
  · split at h
    · cases h
    · obtain rfl := Except.ok.inj h
      exact ⟨rfl, Or.inl rfl⟩
    · obtain rfl := Except.ok.inj h
      exact ⟨rfl, Or.inr (Or.inl rfl)⟩
  · simp only at h
    split at h
    · cases h
    · rename_i opt st1 heq
      obtain ⟨hmaze, hstate, _, _⟩ := get_optimal_path_fields st st.state opt st1 heq
      split at h
      · split at h
        · cases h
        · rename_i res hres
          obtain rfl := Except.ok.inj h
          obtain ⟨h1, p, h2, h3⟩ := tryFollowFrom_ok_some st1 opt _ _ _ hres
          rw [hmaze] at h1 h3
          exact ⟨h1, Or.inr (Or.inr ⟨p, h2, h3⟩)⟩
        · obtain ⟨h1, h2⟩ := fallbackExplore_ok st1 o h
          rw [hmaze] at h1
          rw [hstate, hmaze] at h2
          exact ⟨h1, Or.inr h2⟩
      · obtain ⟨h1, h2⟩ := fallbackExplore_ok st1 o h
        rw [hmaze] at h1
        rw [hstate, hmaze] at h2
        exact ⟨h1, Or.inr h2⟩

/-- C9: both step functions leave every cell code of the maze unchanged
on any successful call: only the bot's own bookkeeping is mutated. -/
theorem C9_maze_frame (st : Bot) (draw : ℚ) (natDraw : ℕ)
    (o : StepOut × Bot) :
    (mazeBotStep st draw natDraw = Except.ok o → o.2.maze = st.maze) ∧
    (enhancedStep st draw = Except.ok o → o.2.maze = st.maze) :=
  ⟨fun h => (mazeBotStep_ok st draw natDraw o h).1,
   fun h => (enhancedStep_ok st draw o h).1⟩

/-- Witness for C9 at the concrete one-step runs of `c5bot` and `c6bot`. -/
theorem C9_maze_frame_witness :
    c5bot1.maze = c5bot.maze ∧ c6bot1.maze = c6bot.maze :=
  ⟨(C9_maze_frame c5bot (1 / 2) 0 (StepOut.pos (0, 0), c5bot1)).1
      (by with_unfolding_all rfl),
   (C9_maze_frame c6bot 0 0 (StepOut.pos (2, 1), c6bot1)).2
      (by with_unfolding_all rfl)⟩

/-- C10: starting from a valid position, every position either step
function reports is within bounds and not a wall. -/
theorem C10_position_validity (st : Bot) (draw : ℚ) (natDraw : ℕ)
    (p : Pos) (st' : Bot) (hvalid : is_valid st.maze st.state = true) :
    (mazeBotStep st draw natDraw = Except.ok (StepOut.pos p, st') →
      is_valid st.maze p = true) ∧
    (enhancedStep st draw = Except.ok (StepOut.pos p, st') →
      is_valid st.maze p = true) := by
  constructor
  · intro h
    rcases (mazeBotStep_ok st draw natDraw _ h).2 with h1 | h1 | ⟨q, h1, h2⟩
    · cases h1
    · obtain rfl := StepOut.pos.inj h1
      exact hvalid
    · obtain rfl := StepOut.pos.inj h1
      exact h2
  · intro h
    rcases (enhancedStep_ok st draw _ h).2 with h1 | h1 | ⟨q, h1, h2⟩
    · cases h1
    · obtain rfl := StepOut.pos.inj h1
      exact hvalid
    · obtain rfl := StepOut.pos.inj h1
      exact h2

/-- Witness for C10 at the concrete one-step run of `c6bot`. -/
theorem C10_position_validity_witness :
    is_valid c6bot.maze c6bot.state = true ∧
      is_valid c6bot.maze (2, 1) = true :=
  ⟨rfl, (C10_position_validity c6bot 0 0 (2, 1) c6bot1 rfl).2
    (by with_unfolding_all rfl)⟩

set_option maxHeartbeats 16000000 in
set_option maxRecDepth 40000 in
/-- C4 (counterexample): at `(17, 17, kruskal)` under `c4stream`, the
adaptive pipeline returns a grid with exactly one START and one GOAL,
but START sits on the centre pillar `(8,8)` whose four neighbours are
all walls: no path of non-wall cells connects START to GOAL. -/
theorem C4_connectivity_counterexample :
    adaptiveGenerate 17 17 Alg.kruskal c4stream 2 100 =
      some (c4grid, (8, 8), some (1, 1), []) ∧
    countCode c4grid 2 = 1 ∧ countCode c4grid 3 = 1 ∧
    cellZ c4grid (8, 8) = 2 ∧ cellZ c4grid (1, 1) = 3 ∧
    ¬ ReachFree c4grid (8, 8) (1, 1) := by
  refine ⟨rfl, rfl, rfl, rfl, rfl, ?_⟩
  intro hreach
  have h := reachFree_isolated ?_ hreach
  · exact absurd h (by decide)
  · intro q hq
    rcases adj_cases hq with h1 | h1 | h1 | h1 <;> subst h1 <;>
      exact fun hc => hc.2 (by decide)

set_option maxRecDepth 8000 in
/-- Witness for the amended C4 on the all-EMPTY 11×11 grid. -/
theorem C4_placement_amended_witness :
    countCode (setZ (setZ (List.replicate 11 (List.replicate 11 0)) (5, 5) 2)
      (1, 1) 3) 2 = 1 :=
  (C4_placement_amended 11 11 (List.replicate 11 (List.replicate 11 0)) []
    (setZ (setZ (List.replicate 11 (List.replicate 11 0)) (5, 5) 2) (1, 1) 3)
    (5, 5) (some (1, 1)) [] rfl (by decide) (by decide) (by decide) (by decide)
    (by decide)).1

end RetroMaze
